import Mathlib

/-!
Verification of the codebase-semantic-search indexing and search core.

The Go sources are shallowly embedded: Go strings are lists of characters
(byte-faithful for ASCII data), Go float64 scores are modelled as rationals,
Go maps as association lists, external services (embedding backend, vector
backend, filesystem, tokenizer, tree-sitter parse, regex boundary checks)
as explicit oracle parameters, and `uuid.New()` as a deterministic fresh-id
supply threaded through the chunkers.
-/

set_option linter.unusedVariables false

namespace SemSearch

/-- Characters of a Go string; the embedding is byte-faithful for ASCII content. -/
abbrev Str := List Char

/-- Go unicode.IsSpace restricted to ASCII whitespace (space, tab, newline,
vertical tab, form feed, carriage return). -/
def goIsSpace (c : Char) : Bool :=
  c == ' ' || c == '\t' || c == '\n' || c == Char.ofNat 11 || c == Char.ofNat 12 || c == '\r'

/-- Go strings.ToLower (ASCII case mapping). -/
def goToLower (s : Str) : Str := s.map Char.toLower

/-- Go strings.HasPrefix: does `s` start with `p`? -/
def goStartsWith : Str → Str → Bool
  | _, [] => true
  | [], _ :: _ => false
  | a :: s, b :: p => a == b && goStartsWith s p

/-- Go strings.Index: index of the first occurrence of `sub` in `s`;
`none` models the -1 result.  As in Go, the empty pattern occurs at index 0. -/
def goIndexOf (s sub : Str) : Option Nat :=
  if goStartsWith s sub then some 0
  else
    match s with
    | [] => none
    | _ :: s' => (goIndexOf s' sub).map (· + 1)

/-- Go strings.Contains. -/
def goContains (s sub : Str) : Bool := (goIndexOf s sub).isSome

/-- Go strings.HasSuffix. -/
def goEndsWith (s t : Str) : Bool := goStartsWith s.reverse t.reverse

/-- Worker for `goFields`: `cur` holds the current word, reversed. -/
def goFieldsAux : Str → Str → List Str
  | cur, [] => if cur.isEmpty then [] else [cur.reverse]
  | cur, c :: rest =>
    if goIsSpace c then
      if cur.isEmpty then goFieldsAux [] rest else cur.reverse :: goFieldsAux [] rest
    else goFieldsAux (c :: cur) rest

/-- Go strings.Fields: whitespace-delimited words. -/
def goFields (s : Str) : List Str := goFieldsAux [] s

/-- Go strings.TrimSpace. -/
def goTrim (s : Str) : Str := ((s.dropWhile goIsSpace).reverse.dropWhile goIsSpace).reverse

/-- Go slice expression content[a:b] (for b ≤ length; total by clamping). -/
def goSlice (s : Str) (a b : Nat) : Str := (s.take b).drop a

/-- Number of newline characters in a string (Go strings.Count(s, newline)). -/
def countNL (s : Str) : Nat := s.countP (fun c => c == '\n')

/-- Go strings.Split(s, newline): split into lines, keeping empty fields. -/
def goSplitLines : Str → List Str
  | [] => [[]]
  | c :: rest =>
    if c == '\n' then [] :: goSplitLines rest
    else
      match goSplitLines rest with
      | [] => [[c]]
      | l :: ls => (c :: l) :: ls

/-- Join a list of lines, appending a newline after each line
(the strings.Builder pattern used by splitLargeChunk and createClassSummary). -/
def joinNL : List Str → Str
  | [] => []
  | l :: ls => l ++ ('\n' :: joinNL ls)

/-- Go strings.Join(lines, newline). -/
def goJoinLines : List Str → Str
  | [] => []
  | [l] => l
  | l :: ls => l ++ ('\n' :: goJoinLines ls)

/-! ## Search data model (internal/search, searcher version of batcher.go) -/

/-- Search configuration (pkg/config SearchConfig fields used by the searcher).
Scores are rationals standing for Go float64 values. -/
structure SearchConfig where
  maxResults : Nat
  semanticWeight : ℚ
  exactMatchBoost : ℚ
deriving Repr

/-- models.ChunkType. -/
inductive ChunkType where
  | function
  | file
  | classSummary
  | method
deriving DecidableEq, Repr

/-- models.CodeChunk.  The embedding vector, metadata map and indexed-at
timestamp are omitted: no claim observes them. -/
structure CodeChunk where
  id : Str
  repoPath : Str
  filePath : Str
  chunkType : ChunkType
  content : Str
  language : Str
  startLine : Nat
  endLine : Nat
  functionName : Str
  className : Str
  parentChunkID : Str
deriving DecidableEq, Repr

/-- search.SearchResult.  `matchPositions = none` models a call of
findMatchPositions that never terminates (the Go loop makes no progress). -/
structure SearchResult where
  chunk : CodeChunk
  semanticScore : ℚ
  exactMatch : Bool
  hybridScore : ℚ
  matchPositions : Option (List Nat)
deriving DecidableEq, Repr

/-- Loop body of findMatchPositions with explicit fuel.  One fuel unit is one
iteration of the Go for-loop; `none` means the fuel ran out, which for the
chosen fuel bound only happens when the loop cannot terminate. -/
def findMatchPositionsAux (content query : Str) : Nat → Nat → List Nat → Option (List Nat)
  | 0, _, _ => none
  | fuel + 1, pos, acc =>
    match goIndexOf (content.drop pos) query with
    | none => some acc
    | some idx => findMatchPositionsAux content query fuel (pos + idx + query.length) (acc ++ [pos + idx])

/-- search.findMatchPositions.  For a nonempty query the Go loop advances `pos`
by at least one per found match, so content.length + 1 iterations always
suffice; for the empty query the loop never advances and diverges (`none`). -/
def findMatchPositions (content query : Str) : Option (List Nat) :=
  findMatchPositionsAux content query (content.length + 1) 0 []

/-- search.isTestFile (argument is already lowercased by the caller). -/
def isTestFile (pathLower : Str) : Bool :=
  goContains pathLower ("/test/").data ||
  goContains pathLower ("/tests/").data ||
  goContains pathLower ("/__tests__/").data ||
  goContains pathLower ("/spec/").data ||
  goEndsWith pathLower ("_test.go").data ||
  goEndsWith pathLower ("_test.js").data ||
  goEndsWith pathLower ("_test.ts").data ||
  goEndsWith pathLower (".test.js").data ||
  goEndsWith pathLower (".test.ts").data ||
  goEndsWith pathLower (".test.jsx").data ||
  goEndsWith pathLower (".test.tsx").data ||
  goEndsWith pathLower (".spec.js").data ||
  goEndsWith pathLower (".spec.ts").data ||
  goEndsWith pathLower (".spec.jsx").data ||
  goEndsWith pathLower (".spec.tsx").data ||
  goEndsWith pathLower ("test.java").data ||
  goEndsWith pathLower ("tests.java").data

/-- search.isMainSourceFile. -/
def isMainSourceFile (pathLower : Str) : Bool :=
  goContains pathLower ("/src/main/").data ||
  goContains pathLower ("/src/core/").data ||
  goContains pathLower ("/lib/").data ||
  goContains pathLower ("/pkg/").data ||
  goContains pathLower ("/internal/").data ||
  (goContains pathLower ("/cmd/").data && !goContains pathLower ("/test").data)

/-- search.isGeneratedOrVendor. -/
def isGeneratedOrVendor (pathLower : Str) : Bool :=
  goContains pathLower ("/vendor/").data ||
  goContains pathLower ("/node_modules/").data ||
  goContains pathLower ("/target/").data ||
  goContains pathLower ("/build/").data ||
  goContains pathLower ("/dist/").data ||
  goContains pathLower (".generated.").data ||
  goContains pathLower ("_generated.").data

/-- search.calculateFilePathScore: multiplicative path adjustment,
first match wins (test 0.05, main source 1.3, generated/vendor 0.2, else 1). -/
def calculateFilePathScore (filePath : Str) : ℚ :=
  if isTestFile (goToLower filePath) then 1/20
  else if isMainSourceFile (goToLower filePath) then 13/10
  else if isGeneratedOrVendor (goToLower filePath) then 1/5
  else 1

/-- Number of query words of length > 2 occurring in the lowercased content
(the partial-match counter inside applyHybridScoring). -/
def matchedWordsCount (queryWords : List Str) (contentLower : Str) : Nat :=
  (queryWords.filter (fun w => 2 < w.length && goContains contentLower w)).length

/-- Per-candidate body of search.applyHybridScoring. -/
def scoreChunk (cfg : SearchConfig) (queryLower : Str) (queryWords : List Str)
    (chunk : CodeChunk) (semanticScore : ℚ) : SearchResult :=
  let base := semanticScore * cfg.semanticWeight
  let contentLower := goToLower chunk.content
  if goContains contentLower queryLower then
    { chunk := chunk
      semanticScore := semanticScore
      exactMatch := true
      hybridScore := (base + cfg.exactMatchBoost) * calculateFilePathScore chunk.filePath
      matchPositions := findMatchPositions contentLower queryLower }
  else
    { chunk := chunk
      semanticScore := semanticScore
      exactMatch := false
      hybridScore :=
        (if 0 < matchedWordsCount queryWords contentLower ∧ 0 < queryWords.length then
          base + ((matchedWordsCount queryWords contentLower : ℚ) /
            (queryWords.length : ℚ)) * (3/10)
        else base) * calculateFilePathScore chunk.filePath
      matchPositions := some [] }

/-- search.applyHybridScoring: semantic score scaled by the semantic weight,
plus an additive exact-match boost or partial word-match boost, then the
multiplicative file-path adjustment. -/
def applyHybridScoring (cfg : SearchConfig) (query : Str)
    (chunks : List CodeChunk) (semanticScores : List ℚ) : List SearchResult :=
  let queryLower := goToLower query
  let queryWords := goFields queryLower
  (chunks.zip semanticScores).map (fun p => scoreChunk cfg queryLower queryWords p.1 p.2)

/-- Descending insertion into a list sorted by hybrid score. -/
def insertDesc (x : SearchResult) : List SearchResult → List SearchResult
  | [] => [x]
  | y :: ys => if y.hybridScore < x.hybridScore then x :: y :: ys else y :: insertDesc x ys

/-- The sort.Slice call in search.Search with the comparison
`results[i].HybridScore > results[j].HybridScore`; Go leaves the order of
ties unspecified, this model fixes one admissible order. -/
def sortByHybridDesc (l : List SearchResult) : List SearchResult := l.foldr insertDesc []

/-- search.Search.  The embedding client and the vector database are oracle
parameters; error strings are passed through. -/
def Search (cfg : SearchConfig)
    (generateEmbedding : Str → Except Str (List ℚ))
    (dbSearch : List ℚ → Str → Nat → Except Str (List CodeChunk × List ℚ))
    (query repoPath : Str) : Except Str (List SearchResult) :=
  match generateEmbedding query with
  | .error e => .error e
  | .ok emb =>
    match dbSearch emb repoPath (cfg.maxResults * 3) with
    | .error e => .error e
    | .ok (chunks, semanticScores) =>
      if chunks.length = 0 then .ok []
      else
        let results := applyHybridScoring cfg query chunks semanticScores
        let sorted := sortByHybridDesc results
        .ok (sorted.take cfg.maxResults)

/-- Modelled from the spec: the query string "appears verbatim as a substring"
of the content at byte offset `i` — the spec-side notion of a match offset,
used to compare against the offsets the code actually records. -/
def specOccursAt (content query : Str) (i : Nat) : Bool :=
  decide (goSlice content i (i + query.length) = query ∧ i + query.length ≤ content.length)

/-! Concrete fixtures for the search scenarios. -/

/-- Candidate without any lexical match, path src/Foo (C2 scenario). -/
def fooChunk : CodeChunk :=
  ⟨("id-foo").data, ("repo").data, ("src/Foo").data, ChunkType.function,
    ("nothing relevant").data, ("go").data, 1, 2, [], [], []⟩

/-- Candidate containing the query verbatim, path src/Bar (C2 scenario). -/
def barChunk : CodeChunk :=
  ⟨("id-bar").data, ("repo").data, ("src/Bar").data, ChunkType.function,
    ("the handler is here").data, ("go").data, 1, 2, [], [], []⟩

/-- Candidate under a test directory with a test filename (C5 scenario). -/
def testPathChunk : CodeChunk :=
  ⟨("id-test").data, ("repo").data, ("/tests/Auth_test.ext").data, ChunkType.function,
    ("hello world").data, ("go").data, 1, 2, [], [], []⟩

/-- Candidate used for the empty-query failing input (C4). -/
def c4Chunk : CodeChunk :=
  ⟨("id-c4").data, ("repo").data, ("src/a").data, ChunkType.function,
    ("foo").data, ("go").data, 1, 1, [], [], []⟩

/-- Candidate whose content self-overlaps with the query (C2 counterexample). -/
def overlapChunk : CodeChunk :=
  ⟨("id-ov").data, ("repo").data, ("src/a").data, ChunkType.function,
    ("aaa").data, ("go").data, 1, 1, [], [], []⟩

/-- The search configuration of the C2 scenario (weight 0.7, boost 1.5). -/
def scenarioCfg : SearchConfig := ⟨5, 7/10, 3/2⟩

/-! ## File-hash cache (internal/cache, src/unnamed/part_004) -/

/-- models.FileHash.  Last-indexed times are abstract naturals. -/
structure FileHash where
  path : Str
  hash : Str
  lastIndexed : Nat
  chunkCount : Nat
deriving DecidableEq, Repr

/-- models.FileHashCache.  The Go hash map is an association list read through
List.lookup; mapInsert replaces an existing binding in place. -/
structure FileHashCache where
  repoPath : Str
  hashes : List (Str × FileHash)
  updatedAt : Nat
deriving DecidableEq, Repr

/-- Go map assignment hashes[k] = v. -/
def mapInsert (k : Str) (v : FileHash) : List (Str × FileHash) → List (Str × FileHash)
  | [] => [(k, v)]
  | (k', v') :: rest => if k' = k then (k, v) :: rest else (k', v') :: mapInsert k v rest

/-- The cache directory: one persisted FileHashCache per cache-file path.
This abstracts the JSON files written by Save; getCachePath (the
sha256-derived file name) is the key function passed as `keyFn` below. -/
def Disk : Type := Str → Option FileHashCache

/-- cache.Load (success path): read the persisted cache for repoPath, or start
an empty one when the file does not exist.  Read and unmarshal errors cannot
arise in this model because the disk stores structured values. -/
def loadCache (keyFn : Str → Str) (disk : Disk) (repoPath : Str) (now : Nat) : FileHashCache :=
  match disk (keyFn repoPath) with
  | none => ⟨repoPath, [], now⟩
  | some c => c

/-- cache.Save: fail when no cache is loaded or the file write fails;
otherwise persist a copy with a fresh updated-at time under the cache path
derived from the cache's repo path. -/
def saveCache (keyFn : Str → Str) (st : Option FileHashCache) (disk : Disk)
    (now : Nat) (writeOk : Bool) : Except Str Disk :=
  match st with
  | none => .error ("no cache loaded").data
  | some c =>
    if writeOk then
      .ok (fun k => if k = keyFn c.repoPath then some { c with updatedAt := now } else disk k)
    else .error ("failed to write cache file").data

/-- cache.NeedsReindex.  `hashFn` is the content digest (sha256 of file
bytes) and `fs` the filesystem, path to content; hashing a missing file is
the error path.  True when no cache is loaded, no entry exists, or the
recorded hash differs from the current one. -/
def needsReindex (hashFn : Str → Str) (fs : Str → Option Str)
    (st : Option FileHashCache) (filePath : Str) : Except Str Bool :=
  match st with
  | none => .ok true
  | some c =>
    match fs filePath with
    | none => .error ("failed to compute file hash").data
    | some content =>
      match c.hashes.lookup filePath with
      | none => .ok true
      | some cached => .ok (decide (cached.hash ≠ hashFn content))

/-- cache.Update: hash the file first, then record hash, indexing time and
chunk count; errors when the file cannot be hashed or no cache is loaded. -/
def updateCache (hashFn : Str → Str) (fs : Str → Option Str)
    (st : Option FileHashCache) (filePath : Str) (chunkCount : Nat) (now : Nat) :
    Except Str FileHashCache :=
  match fs filePath with
  | none => .error ("failed to compute file hash").data
  | some content =>
    match st with
    | none => .error ("no cache loaded").data
    | some c =>
      .ok { c with
        hashes := mapInsert filePath ⟨filePath, hashFn content, now, chunkCount⟩ c.hashes }

/-! ## Indexing orchestrator (internal/indexer/indexer.go, doIndex) -/

/-- models.IndexStatus. -/
inductive IndexStatus where
  | pending
  | running
  | completed
  | failed
deriving DecidableEq, Repr

/-- Result of one doIndex run: final job status, the cache directory after
the run, the in-memory cache, the collected chunk batch, and the files that
were actually chunked. -/
structure RunOutcome where
  status : IndexStatus
  disk : Disk
  mem : Option FileHashCache
  chunks : List CodeChunk
  chunkedFiles : List Str

/-- The skip test of the worker loop: in incremental non-forced mode a file
is skipped exactly when NeedsReindex succeeds and reports false (an error is
only logged and the file is still chunked). -/
def shouldSkip (hashFn : Str → Str) (fs : Str → Option Str)
    (incremental force : Bool) (mem : Option FileHashCache) (f : Str) : Bool :=
  if ¬ force ∧ incremental then
    match needsReindex hashFn fs mem f with
    | .ok false => true
    | _ => false
  else false

/-- One iteration of the doIndex worker loop for a single file: skip when the
file is unchanged; otherwise read and chunk it (`chunkFn` abstracts
Chunker.ChunkFile on the file's content), update the in-memory cache when in
incremental mode (an Update error is only logged), and hand the chunks on.
Returns the new cache, the chunks, and whether the file was chunked. -/
def processOneFile (hashFn : Str → Str) (fs : Str → Option Str)
    (chunkFn : Str → Str → Except Str (List CodeChunk))
    (incremental force : Bool) (now : Nat)
    (mem : Option FileHashCache) (f : Str) :
    Option FileHashCache × List CodeChunk × Bool :=
  if shouldSkip hashFn fs incremental force mem f then (mem, [], false)
  else
    match (match fs f with
      | none => (.error ("failed to read file").data : Except Str (List CodeChunk))
      | some content => chunkFn f content) with
    | .error _ => (mem, [], false)
    | .ok chunks =>
      ((if incremental then
          match updateCache hashFn fs mem f chunks.length now with
          | .ok c => some c
          | .error _ => mem
        else mem), chunks, true)

/-- The worker-pool phase of doIndex collapsed to a sequential fold over the
scanned files: the claims concern the final cache contents and job status,
and cache updates for distinct file paths commute. -/
def runFiles (hashFn : Str → Str) (fs : Str → Option Str)
    (chunkFn : Str → Str → Except Str (List CodeChunk))
    (incremental force : Bool) (now : Nat) :
    Option FileHashCache → List Str → Option FileHashCache × List CodeChunk × List Str
  | mem, [] => (mem, [], [])
  | mem, f :: rest =>
    let st := processOneFile hashFn fs chunkFn incremental force now mem f
    let r := runFiles hashFn fs chunkFn incremental force now st.1 rest
    (r.1, st.2.1 ++ r.2.1, (if st.2.2 then [f] else []) ++ r.2.2)

/-- Steps 9-10 of doIndex: persist the hash cache (incremental mode only) and
complete, or fail when the save fails. -/
def doIndexSave (keyFn : Str → Str) (incremental : Bool) (disk0 : Disk)
    (r : Option FileHashCache × List CodeChunk × List Str)
    (writeOk : Bool) (now : Nat) : RunOutcome :=
  if incremental then
    match saveCache keyFn r.1 disk0 now writeOk with
    | .error _ => ⟨.failed, disk0, r.1, r.2.1, r.2.2⟩
    | .ok disk1 => ⟨.completed, disk1, r.1, r.2.1, r.2.2⟩
  else ⟨.completed, disk0, r.1, r.2.1, r.2.2⟩

/-- Steps 7-10 of doIndex after chunk collection: when chunks were produced,
generate embeddings and store them, failing the job and leaving the disk
untouched when either backend call fails; only then save the cache. -/
def doIndexAfterScan (keyFn : Str → Str) (incremental : Bool) (disk0 : Disk)
    (r : Option FileHashCache × List CodeChunk × List Str)
    (embedOk storeOk writeOk : Bool) (now : Nat) : RunOutcome :=
  if r.2.1.length ≠ 0 then
    if embedOk then
      if storeOk then doIndexSave keyFn incremental disk0 r writeOk now
      else ⟨.failed, disk0, r.1, r.2.1, r.2.2⟩
    else ⟨.failed, disk0, r.1, r.2.1, r.2.2⟩
  else doIndexSave keyFn incremental disk0 r writeOk now

/-- indexer.doIndex with the backends as oracles: `scanResult` is the
scanner's outcome, `embedOk` whether Batcher.ProcessChunks succeeds, `storeOk`
whether the vector-database upsert succeeds, `writeOk` whether the cache file
write succeeds; `st0` is the manager's in-memory cache before the run. -/
def doIndex (hashFn : Str → Str) (fs : Str → Option Str)
    (chunkFn : Str → Str → Except Str (List CodeChunk)) (keyFn : Str → Str)
    (incremental force : Bool) (repoPath : Str)
    (scanResult : Except Str (List Str)) (disk0 : Disk) (st0 : Option FileHashCache)
    (embedOk storeOk writeOk : Bool) (now : Nat) : RunOutcome :=
  match scanResult with
  | .error _ =>
    ⟨.failed, disk0,
      if ¬ force ∧ incremental then some (loadCache keyFn disk0 repoPath now) else st0, [], []⟩
  | .ok files =>
    doIndexAfterScan keyFn incremental disk0
      (runFiles hashFn fs chunkFn incremental force now
        (if ¬ force ∧ incremental then some (loadCache keyFn disk0 repoPath now) else st0) files)
      embedOk storeOk writeOk now

/-- Concrete cache directory used by the C8 witness. -/
def c8disk2 : Disk :=
  fun k => if k = ("r").data then some ⟨("r").data, [], 5⟩ else none

/-! ## Language detection (internal/indexer/languages.go) -/

/-- filepath.Ext: the suffix starting at the final dot of the last path
element; empty when the name has no dot. -/
def goExt (path : Str) : Str :=
  let revName := path.reverse.takeWhile (fun c => c != '/')
  if revName.contains '.' then '.' :: (revName.takeWhile (fun c => c != '.')).reverse
  else []

/-- LanguageDetector.Detect: lowercased extension to language name over the
four-language registry (java, typescript, javascript, go). -/
def detectLanguage (filePath : Str) : Option Str :=
  let ext := goToLower (goExt filePath)
  if ext = [] then none
  else if ext = (".java").data then some ("java").data
  else if ext = (".ts").data ∨ ext = (".tsx").data then some ("typescript").data
  else if ext = (".js").data ∨ ext = (".jsx").data ∨ ext = (".mjs").data ∨ ext = (".cjs").data
    then some ("javascript").data
  else if ext = (".go").data then some ("go").data
  else none

/-- ASTChunker.CanParseLanguage: tree-sitter parsers exist for java,
javascript and typescript. -/
def canParseLanguage (language : Str) : Bool :=
  language == ("java").data || language == ("javascript").data ||
    language == ("typescript").data

/-! ## Chunking configuration and adaptive sizing (part_007, final version) -/

/-- pkg/config ChunkingConfig (the fields the chunkers read). -/
structure ChunkingConfig where
  smallFileMaxTokens : Nat
  mediumFileMaxTokens : Nat
  largeFileMaxTokens : Nat
  enableHierarchicalChunking : Bool
  maxChunkSizeBytes : Nat
deriving Repr

/-- Chunker.calculateOptimalChunkSize: token and overlap budgets from the
three file-size tiers (thresholds 1000 and 5000 lines, overlap divisors 15,
10 and 7), defaulting to 200/20 when adaptive sizing is unconfigured. -/
def calculateOptimalChunkSize (cfg : ChunkingConfig) (fileLines : Nat) : Nat × Nat :=
  if 0 < cfg.smallFileMaxTokens then
    if fileLines < 1000 then (cfg.smallFileMaxTokens, cfg.smallFileMaxTokens / 15)
    else if fileLines < 5000 then (cfg.mediumFileMaxTokens, cfg.mediumFileMaxTokens / 10)
    else (cfg.largeFileMaxTokens, cfg.largeFileMaxTokens / 7)
  else (200, 20)

/-! ## AST chunker (internal/indexer/ast_chunker.go)

Tree-sitter is external: its parse trees are modelled by `AstNode` and the
parse call by an oracle.  The regex heuristic isMethodStart is likewise an
oracle `isMS`; no claim depends on which lines it accepts. -/

/-- Abstract tree-sitter node: grammar type string, byte span, row span and
children.  Well-formedness of spans is assumed by hypotheses where needed. -/
inductive AstNode where
  | mk (type : Str) (startByte endByte startRow endRow : Nat) (children : List AstNode)

/-- Node type string. -/
def AstNode.type : AstNode → Str
  | .mk t _ _ _ _ _ => t

/-- Start byte offset. -/
def AstNode.startByte : AstNode → Nat
  | .mk _ sb _ _ _ _ => sb

/-- End byte offset (exclusive). -/
def AstNode.endByte : AstNode → Nat
  | .mk _ _ eb _ _ _ => eb

/-- Start row (0-based). -/
def AstNode.startRow : AstNode → Nat
  | .mk _ _ _ sr _ _ => sr

/-- End row (0-based). -/
def AstNode.endRow : AstNode → Nat
  | .mk _ _ _ _ er _ => er

/-- Child nodes. -/
def AstNode.children : AstNode → List AstNode
  | .mk _ _ _ _ _ cs => cs

/-- uuid.New().String() modelled as a deterministic fresh-id supply; like a
real UUID string, every generated id is nonempty. -/
def genId (n : Nat) : Str := ("uuid-").data ++ (toString n).data

/-- Tree-sitter node type constant (Java class). -/
def nodeTypeJavaClass : Str := ("class_declaration").data

/-- Tree-sitter node type constant (Java interface). -/
def nodeTypeJavaInterface : Str := ("interface_declaration").data

/-- Tree-sitter node type constant (Java enum). -/
def nodeTypeJavaEnum : Str := ("enum_declaration").data

/-- Tree-sitter node type constant (Java method). -/
def nodeTypeJavaMethod : Str := ("method_declaration").data

/-- Tree-sitter node type constant (Java constructor). -/
def nodeTypeJavaConstructor : Str := ("constructor_declaration").data

/-- Tree-sitter node type constant (JS function). -/
def nodeTypeJSFunction : Str := ("function_declaration").data

/-- Tree-sitter node type constant (JS class). -/
def nodeTypeJSClass : Str := ("class_declaration").data

/-- Tree-sitter node type constant (JS method). -/
def nodeTypeJSMethod : Str := ("method_definition").data

/-- Tree-sitter node type constant (JS arrow function). -/
def nodeTypeJSArrowFunction : Str := ("arrow_function").data

/-- Tree-sitter node type constant (JS function expression). -/
def nodeTypeJSFunctionExpr : Str := ("function_expression").data

/-- Tree-sitter node type constant (TS interface). -/
def nodeTypeTSInterface : Str := ("interface_declaration").data

/-- Tree-sitter node type constant (TS type alias). -/
def nodeTypeTSTypeAlias : Str := ("type_alias_declaration").data

/-- Tree-sitter node type constant (identifier). -/
def nodeTypeIdentifier : Str := ("identifier").data

/-- Tree-sitter node type constant (name). -/
def nodeTypeName : Str := ("name").data

/-- Tree-sitter node type constant (property identifier). -/
def nodeTypePropertyID : Str := ("property_identifier").data

/-- Tree-sitter node type constant (type identifier). -/
def nodeTypeTypeID : Str := ("type_identifier").data

/-- Tree-sitter node type constant (variable declarator). -/
def nodeTypeVariableDecl : Str := ("variable_declarator").data

/-- ASTChunker.getSemanticNodeTypes (the per-language extraction set). -/
def getSemanticNodeTypes (language : Str) : List Str :=
  if language = ("java").data then
    [nodeTypeJavaClass, nodeTypeJavaInterface, nodeTypeJavaEnum,
      nodeTypeJavaMethod, nodeTypeJavaConstructor]
  else if language = ("javascript").data then
    [nodeTypeJSFunction, nodeTypeJSClass, nodeTypeJSMethod,
      nodeTypeJSArrowFunction, nodeTypeJSFunctionExpr]
  else if language = ("typescript").data then
    [nodeTypeJSFunction, nodeTypeJSClass, nodeTypeTSInterface,
      nodeTypeTSTypeAlias, nodeTypeJSMethod, nodeTypeJSArrowFunction]
  else [nodeTypeJSFunction, nodeTypeJSClass, nodeTypeJavaMethod]

/-- The class-like node types of createChunkFromNode and
isLargeClassOrInterface. -/
def classNodeTypes : List Str :=
  [nodeTypeJavaClass, nodeTypeJavaInterface, nodeTypeJavaEnum,
    nodeTypeJSClass, nodeTypeTSInterface]

/-- The function-like node types of createChunkFromNode. -/
def functionNodeTypes : List Str :=
  [nodeTypeJSFunction, nodeTypeJavaMethod, nodeTypeJSMethod,
    nodeTypeJavaConstructor, nodeTypeJSArrowFunction, nodeTypeJSFunctionExpr]

mutual

/-- ASTChunker.extractNodeName: the first identifier-like child with a valid
span names the node; variable_declarator children are searched recursively
(arrow functions bound to variables). -/
def extractNodeName : AstNode → Str → Str
  | .mk _ _ _ _ _ cs, content => extractNodeNameFrom content cs

/-- Child loop of extractNodeName. -/
def extractNodeNameFrom (content : Str) : List AstNode → Str
  | [] => []
  | c :: rest =>
    if c.type = nodeTypeIdentifier ∨ c.type = nodeTypeName ∨
        c.type = nodeTypePropertyID ∨ c.type = nodeTypeTypeID then
      if c.startByte < c.endByte ∧ c.endByte ≤ content.length then
        goSlice content c.startByte c.endByte
      else extractNodeNameFrom content rest
    else if c.type = nodeTypeVariableDecl then
      if extractNodeName c content ≠ [] then extractNodeName c content
      else extractNodeNameFrom content rest
    else extractNodeNameFrom content rest

end

mutual

/-- ASTChunker.walkTree as a preorder collector of the nodes whose type is in
`types`; matched nodes still recurse into their children. -/
def walkCollect (types : List Str) : AstNode → List AstNode
  | .mk t sb eb sr er cs =>
    (if types.contains t then [AstNode.mk t sb eb sr er cs] else []) ++
      walkCollectAll types cs

/-- walkCollect over a list of siblings. -/
def walkCollectAll (types : List Str) : List AstNode → List AstNode
  | [] => []
  | c :: rest => walkCollect types c ++ walkCollectAll types rest

end

mutual

/-- The parent-pointer filter of extractMethodNodes expressed by depth below
the class node: collect matching descendants whose parent (depth 1) or
grandparent (depth 2) is the class node. -/
def collectAtDepth (types : List Str) (d : Nat) : AstNode → List AstNode
  | .mk t sb eb sr er cs =>
    (if types.contains t ∧ (d = 1 ∨ d = 2) then [AstNode.mk t sb eb sr er cs] else []) ++
      collectAtDepthAll types (d + 1) cs

/-- collectAtDepth over a list of siblings. -/
def collectAtDepthAll (types : List Str) (d : Nat) : List AstNode → List AstNode
  | [] => []
  | c :: rest => collectAtDepth types d c ++ collectAtDepthAll types d rest

end

/-- The per-language method node types of extractMethodNodes. -/
def methodNodeTypes (language : Str) : List Str :=
  if language = ("java").data then [nodeTypeJavaMethod, nodeTypeJavaConstructor]
  else if language = ("javascript").data then [nodeTypeJSMethod, nodeTypeJSFunction]
  else if language = ("typescript").data then [nodeTypeJSMethod, nodeTypeJSFunction]
  else [nodeTypeJavaMethod]

/-- ASTChunker.extractMethodNodes: the method/constructor nodes directly (or
one level) below the class node. -/
def extractMethodNodes (language : Str) (cls : AstNode) : List AstNode :=
  collectAtDepthAll (methodNodeTypes language) 1 cls.children

/-- ASTChunker.createChunkFromNode: slice the node's span, drop invalid spans
and sub-10-byte bodies, cap at 4000 bytes, name it from its first identifier
child.  Returns the chunk and the advanced id counter. -/
def createChunkFromNode (n : AstNode) (repoPath filePath language content nodeType : Str)
    (ctr : Nat) : Option CodeChunk × Nat :=
  if n.endByte ≤ n.startByte ∨ content.length < n.endByte then (none, ctr)
  else if (goTrim (goSlice content n.startByte n.endByte)).length < 10 then (none, ctr)
  else
    (some
      { id := genId ctr
        repoPath := repoPath
        filePath := filePath
        chunkType := ChunkType.function
        content :=
          if 4000 < (goSlice content n.startByte n.endByte).length then
            (goSlice content n.startByte n.endByte).take 4000
          else goSlice content n.startByte n.endByte
        language := language
        startLine := n.startRow + 1
        endLine := n.endRow + 1
        functionName :=
          if classNodeTypes.contains nodeType then []
          else if functionNodeTypes.contains nodeType then extractNodeName n content
          else []
        className :=
          if classNodeTypes.contains nodeType then extractNodeName n content
          else if functionNodeTypes.contains nodeType then []
          else if nodeType = nodeTypeTSTypeAlias then extractNodeName n content
          else []
        parentChunkID := [] }, ctr + 1)

/-- ASTChunker.isLargeClassOrInterface: class-like node whose byte span
exceeds the configured maximum chunk size. -/
def isLargeClassOrInterface (n : AstNode) (nodeType : Str) (maxSize : Nat) : Bool :=
  classNodeTypes.contains nodeType && decide (maxSize < n.endByte - n.startByte)

/-- The signature-end scan of createClassSummary: the first line index past
50 or matching the method-start heuristic, else the line count. -/
def findSignatureEnd (isMS : Str → Str → Bool) (language : Str) :
    Nat → List Str → Nat → Nat
  | _, [], total => total
  | i, l :: rest, total =>
    if 50 < i then i
    else if isMS (goTrim l) language then i
    else findSignatureEnd isMS language (i + 1) rest total

/-- The method-list builder of createClassSummary: up to 20 truncated method
signatures, then a summary count line. -/
def methodListLines (content : Str) (total : Nat) : Nat → List AstNode → Str
  | _, [] => []
  | i, m :: rest =>
    if 20 ≤ i then
      ("// ... and ").data ++ (toString (total - 20)).data ++ (" more methods\n").data
    else
      (if extractNodeName m content ≠ [] then
        if m.endByte ≤ content.length then
          match goSplitLines (goSlice content m.startByte m.endByte) with
          | [] => []
          | l0 :: _ =>
            ("// - ").data ++
              (if 100 < (goTrim l0).length then (goTrim l0).take 100 ++ ("...").data
                else goTrim l0) ++ ("\n").data
        else []
      else []) ++ methodListLines content total (i + 1) rest

/-- ASTChunker.createClassSummary: the signature lines up to the first
detected method start, then the generated method list. -/
def createClassSummary (isMS : Str → Str → Bool) (n : AstNode)
    (content language : Str) : Str :=
  let endB := if content.length < n.endByte then content.length else n.endByte
  let lines := goSplitLines (goSlice content n.startByte endB)
  let sig := joinNL (lines.take (findSignatureEnd isMS language 0 lines lines.length))
  let methods := extractMethodNodes language n
  if methods.length ≠ 0 then
    sig ++ ("\n// Methods:\n").data ++ methodListLines content methods.length 0 methods
  else sig

/-- The line loop of ASTChunker.splitLargeChunk: `cur` is the builder, `i`
the index of the next line, `curStart` the pending chunk's start line.
Returns the emitted chunks, the remaining builder, its start line and the counter. -/
def splitChunkLoop (base : CodeChunk) (lines : List Str) (total maxSize ov : Nat) :
    Nat → List Str → Str → Nat → Nat → List CodeChunk × Str × Nat × Nat
  | _, [], cur, curStart, ctr => ([], cur, curStart, ctr)
  | i, l :: rest, cur, curStart, ctr =>
    if maxSize < (cur ++ l ++ ("\n").data).length ∧ i < total - 1 then
      match splitChunkLoop base lines total maxSize ov (i + 1) rest
          (joinNL ((lines.drop (i - ov)).take (i + 1 - (i - ov))))
          (base.startLine + (i - ov)) (ctr + 1) with
      | (cs, curF, csF, ctrF) =>
        ({ base with
            id := genId ctr
            content :=
              if maxSize < (cur ++ l ++ ("\n").data).length then
                (cur ++ l ++ ("\n").data).take maxSize
              else cur ++ l ++ ("\n").data
            startLine := curStart
            endLine := base.startLine + i } :: cs, curF, csF, ctrF)
    else
      splitChunkLoop base lines total maxSize ov (i + 1) rest
        (cur ++ l ++ ("\n").data) curStart ctr

/-- ASTChunker.splitLargeChunk: line-window splitting of an oversized chunk,
overlapping ~10% of the lines (clamped to 1..10) between windows; metadata is
inherited from the split chunk. -/
def splitLargeChunk (chunk : CodeChunk) (maxSize : Nat) (ctr : Nat) :
    List CodeChunk × Nat :=
  let lines := goSplitLines chunk.content
  let ov :=
    if lines.length / 10 < 1 then 1
    else if 10 < lines.length / 10 then 10
    else lines.length / 10
  match splitChunkLoop chunk lines lines.length maxSize ov 0 lines [] chunk.startLine ctr with
  | (cs, cur, curStart, ctr2) =>
    if 0 < cur.length then
      (cs ++ [{ chunk with
        id := genId ctr2
        content := if maxSize < cur.length then cur.take maxSize else cur
        startLine := curStart
        endLine := chunk.endLine }], ctr2 + 1)
    else (cs, ctr2)

/-- The method loop of createHierarchicalChunks: each method node becomes a
method chunk carrying the summary chunk's id and the class name; oversized
method chunks are split further. -/
def hierarchicalMethods (repoPath filePath language content : Str)
    (maxSize : Nat) (summaryId className : Str) :
    Nat → List AstNode → List CodeChunk × Nat
  | ctr, [] => ([], ctr)
  | ctr, m :: rest =>
    match createChunkFromNode m repoPath filePath language content nodeTypeJavaMethod ctr with
    | (none, ctr2) => hierarchicalMethods repoPath filePath language content maxSize
        summaryId className ctr2 rest
    | (some mc, ctr2) =>
      let mc2 := { mc with
        parentChunkID := summaryId
        chunkType := ChunkType.method
        className := className }
      if maxSize < mc2.content.length then
        match splitLargeChunk mc2 maxSize ctr2 with
        | (sp, ctr3) =>
          match hierarchicalMethods repoPath filePath language content maxSize
              summaryId className ctr3 rest with
          | (ms, ctr4) => (sp ++ ms, ctr4)
      else
        match hierarchicalMethods repoPath filePath language content maxSize
            summaryId className ctr2 rest with
        | (ms, ctr3) => (mc2 :: ms, ctr3)

/-- ASTChunker.createHierarchicalChunks: a class-summary chunk (type class,
capped at maxSize) followed by the per-method chunks referencing its id. -/
def createHierarchicalChunks (isMS : Str → Str → Bool) (n : AstNode)
    (repoPath filePath language content nodeType : Str) (maxSize : Nat) (ctr : Nat) :
    List CodeChunk × Nat :=
  let summaryId := genId ctr
  let summaryChunk : CodeChunk :=
    { id := summaryId
      repoPath := repoPath
      filePath := filePath
      chunkType := ChunkType.classSummary
      content :=
        if maxSize < (createClassSummary isMS n content language).length then
          (createClassSummary isMS n content language).take maxSize
        else createClassSummary isMS n content language
      language := language
      startLine := n.startRow + 1
      endLine := n.endRow + 1
      functionName := []
      className := extractNodeName n content
      parentChunkID := [] }
  match hierarchicalMethods repoPath filePath language content maxSize summaryId
      (extractNodeName n content) (ctr + 1) (extractMethodNodes language n) with
  | (ms, ctr2) => (summaryChunk :: ms, ctr2)

/-- The tree-walk callback body of extractSemanticNodes for one matched node:
hierarchical splitting for oversized class-likes, plain chunking (with
large-chunk splitting) otherwise. -/
def chunksForNode (isMS : Str → Str → Bool) (enableHier : Bool)
    (repoPath filePath language content : Str) (maxSize : Nat)
    (n : AstNode) (ctr : Nat) : List CodeChunk × Nat :=
  if enableHier ∧ isLargeClassOrInterface n n.type maxSize = true then
    createHierarchicalChunks isMS n repoPath filePath language content n.type maxSize ctr
  else
    match createChunkFromNode n repoPath filePath language content n.type ctr with
    | (none, ctr2) => ([], ctr2)
    | (some ch, ctr2) =>
      if maxSize < ch.content.length then splitLargeChunk ch maxSize ctr2
      else ([ch], ctr2)

/-- chunksForNode over the walk's matched node list. -/
def chunksForNodes (isMS : Str → Str → Bool) (enableHier : Bool)
    (repoPath filePath language content : Str) (maxSize : Nat) :
    Nat → List AstNode → List CodeChunk × Nat
  | ctr, [] => ([], ctr)
  | ctr, n :: rest =>
    match chunksForNode isMS enableHier repoPath filePath language content maxSize n ctr with
    | (cs, ctr2) =>
      match chunksForNodes isMS enableHier repoPath filePath language content maxSize
          ctr2 rest with
      | (csR, ctr3) => (cs ++ csR, ctr3)

/-- ASTChunker.extractSemanticNodes: walk the tree for the language's semantic
node types and chunk each match, defaulting the size cap to 4000 bytes. -/
def extractSemanticNodes (isMS : Str → Str → Bool) (root : AstNode)
    (cfg : ChunkingConfig) (repoPath filePath language content : Str) (ctr : Nat) :
    List CodeChunk × Nat :=
  chunksForNodes isMS cfg.enableHierarchicalChunking repoPath filePath language content
    (if cfg.maxChunkSizeBytes = 0 then 4000 else cfg.maxChunkSizeBytes) ctr
    (walkCollect (getSemanticNodeTypes language) root)

/-! ## Token chunker (internal/indexer/token_chunker.go)

The tiktoken tokenizer is external and appears as the oracle `tok` (token
count of a string); the IsBoundary regex set appears as the oracle `isB`. -/

/-- TokenChunker.createChunk: join the lines, skip whitespace-only chunks,
cap the text at the 4000-byte safety ceiling. -/
def createChunk (repoPath filePath language : Str) (lines : List Str)
    (startLine : Nat) (ctr : Nat) : Option CodeChunk × Nat :=
  if goTrim (goJoinLines lines) = [] then (none, ctr)
  else
    (some
      { id := genId ctr
        repoPath := repoPath
        filePath := filePath
        chunkType := ChunkType.function
        content :=
          if 4000 < (goJoinLines lines).length then (goJoinLines lines).take 4000
          else goJoinLines lines
        language := language
        startLine := startLine
        endLine := startLine + lines.length - 1
        functionName := []
        className := []
        parentChunkID := [] }, ctr + 1)

/-- Backward walk of TokenChunker.calculateOverlapLines (input reversed). -/
def calcOverlapWorker (tok : Str → Nat) (overlapTokens : Nat) :
    List Str → Nat → List Str → List Str
  | [], _, acc => acc
  | l :: rest, cur, acc =>
    if overlapTokens ≤ cur then acc
    else calcOverlapWorker tok overlapTokens rest (cur + tok l) (l :: acc)

/-- TokenChunker.calculateOverlapLines: take lines from the end until the
overlap-token budget is reached (always at least one line when any exist). -/
def calculateOverlapLines (tok : Str → Nat) (lines : List Str) (overlapTokens : Nat) :
    List Str :=
  if lines.isEmpty ∨ overlapTokens = 0 then []
  else calcOverlapWorker tok overlapTokens lines.reverse 0 []

/-- The 10-line boundary lookahead in chunkWithLimits. -/
def findBoundary (isB : Str → Str → Bool) (language : Str) (lines : List Str) :
    Nat → Nat → Option Nat
  | _, 0 => none
  | j, steps + 1 =>
    if lines.length ≤ j then none
    else if isB (goTrim ((lines.drop j).headD [])) language then some j
    else findBoundary isB language lines (j + 1) steps

/-- The main loop of TokenChunker.chunkWithLimits.  Each iteration advances
the line index by at least one, so lines.length + 1 rounds of fuel always
reach the natural exit; the fuel-exhaustion arm is unreachable. -/
def chunkLoop (tok : Str → Nat) (isB : Str → Str → Bool)
    (repoPath filePath language : Str) (lines : List Str) (maxTokens overlap : Nat) :
    Nat → Nat → List Str → Nat → Nat → List CodeChunk → Nat →
      List CodeChunk × List Str × Nat × Nat
  | 0, _, currentLines, _, startLine, acc, ctr => (acc, currentLines, startLine, ctr)
  | fuel + 1, i, currentLines, currentTokens, startLine, acc, ctr =>
    if lines.length ≤ i then (acc, currentLines, startLine, ctr)
    else
      if maxTokens < currentTokens + tok ((lines.drop i).headD []) ∧ currentLines ≠ [] then
        match findBoundary isB language lines i 10 with
        | some j =>
          match createChunk repoPath filePath language
              (currentLines ++ (lines.drop i).take (j + 1 - i)) startLine ctr with
          | (c, ctr2) =>
            chunkLoop tok isB repoPath filePath language lines maxTokens overlap fuel
              (j + 1)
              (calculateOverlapLines tok
                (currentLines ++ (lines.drop i).take (j + 1 - i)) overlap)
              (tok (goJoinLines (calculateOverlapLines tok
                (currentLines ++ (lines.drop i).take (j + 1 - i)) overlap)))
              (j + 1 - (calculateOverlapLines tok
                (currentLines ++ (lines.drop i).take (j + 1 - i)) overlap).length)
              (match c with | none => acc | some ch => acc ++ [ch]) ctr2
        | none =>
          match createChunk repoPath filePath language currentLines startLine ctr with
          | (c, ctr2) =>
            chunkLoop tok isB repoPath filePath language lines maxTokens overlap fuel
              (i + 1)
              (calculateOverlapLines tok currentLines overlap ++ [(lines.drop i).headD []])
              (tok (goJoinLines (calculateOverlapLines tok currentLines overlap)) +
                tok ((lines.drop i).headD []))
              (i - (calculateOverlapLines tok currentLines overlap).length)
              (match c with | none => acc | some ch => acc ++ [ch]) ctr2
      else
        chunkLoop tok isB repoPath filePath language lines maxTokens overlap fuel
          (i + 1) (currentLines ++ [(lines.drop i).headD []])
          (currentTokens + tok ((lines.drop i).headD [])) startLine acc ctr

/-- TokenChunker.ChunkByTokensWithLimits / chunkWithLimits: the loop plus the
trailing-chunk flush. -/
def chunkWithLimits (tok : Str → Nat) (isB : Str → Str → Bool)
    (repoPath filePath language content : Str) (maxTokens overlap : Nat) (ctr : Nat) :
    List CodeChunk × Nat :=
  match chunkLoop tok isB repoPath filePath language (goSplitLines content)
      maxTokens overlap ((goSplitLines content).length + 1) 0 [] 0 1 [] ctr with
  | (acc, currentLines, startLine, ctr2) =>
    if currentLines ≠ [] then
      match createChunk repoPath filePath language currentLines startLine ctr2 with
      | (none, ctr3) => (acc, ctr3)
      | (some ch, ctr3) => (acc ++ [ch], ctr3)
    else (acc, ctr2)

/-- Chunker.ChunkFile (the facade's current version at the end of part_007):
detect the language, read the file (`fileRead` models os.ReadFile), treat an
all-whitespace file as zero chunks, compute adaptive budgets, try AST
chunking when a parser exists (the oracle `parse` returns the tree or none
for a parse failure), and otherwise fall back to token-aware chunking. -/
def ChunkFile (isMS isB : Str → Str → Bool) (tok : Str → Nat)
    (parse : Str → Str → Option AstNode) (cfg : ChunkingConfig)
    (repoPath filePath : Str) (fileRead : Option Str) (ctr : Nat) :
    Except Str (List CodeChunk) :=
  match detectLanguage filePath with
  | none => .error ("unsupported file type").data
  | some lang =>
    match fileRead with
    | none => .error ("failed to read file").data
    | some fileContent =>
      if goTrim fileContent = [] then .ok []
      else
        match (if canParseLanguage lang then
            match parse lang fileContent with
            | none => none
            | some root =>
              match extractSemanticNodes isMS root cfg repoPath filePath lang fileContent ctr with
              | (cs, _) => if cs.length ≠ 0 then some cs else none
          else none) with
        | some cs => .ok cs
        | none =>
          .ok (chunkWithLimits tok isB repoPath filePath lang fileContent
            (calculateOptimalChunkSize cfg (countNL fileContent + 1)).1
            (calculateOptimalChunkSize cfg (countNL fileContent + 1)).2 ctr).1

/-- Default chunk used only to state witness propositions via headD. -/
def emptyChunk : CodeChunk :=
  ⟨[], [], [], ChunkType.function, [], [], 0, 0, [], [], []⟩

/-- The anonymous-class fixture for the C7 counterexample: a class without an
identifier child whose single method body is mostly blank lines. -/
def c7content : Str :=
  ("class\x7b\nm(abcdef)\x7b\n\n\n\n\n\n\n\n\n\n\n\n\n\x7d\n\x7d").data

/-- The method node of the C7 fixture. -/
def c7method : AstNode := .mk (("method_declaration").data) 7 31 1 14 []

/-- The class-body node of the C7 fixture. -/
def c7body : AstNode := .mk (("class_body").data) 6 33 0 15 [c7method]

/-- The anonymous class node of the C7 fixture. -/
def c7class : AstNode := .mk (("class_declaration").data) 0 33 0 15 [c7body]

end SemSearch

namespace SemSearch

/-! ## Theorems about the hybrid searcher -/

/-- Helper: the empty pattern is found at index 0 (Go strings.Index(s, "") = 0). -/
theorem goIndexOf_nil (s : Str) : goIndexOf s [] = some 0 := by
  cases s <;> simp [goIndexOf, goStartsWith]

/-- Helper: searching for the empty query never terminates — the loop body
always finds index 0 and advances the position by zero, so no amount of fuel
reaches the exit. -/
theorem findMatchPositionsAux_empty_query (content : Str) :
    ∀ fuel pos acc, findMatchPositionsAux content [] fuel pos acc = none := by
  intro fuel
  induction fuel with
  | zero => intro pos acc; rfl
  | succ n ih =>
    intro pos acc
    simp only [findMatchPositionsAux, goIndexOf_nil]
    exact ih pos (acc ++ [pos + 0])

/-- Helper: the path multiplier is one of 1/20, 13/10, 1/5, 1, hence positive. -/
theorem calculateFilePathScore_pos (p : Str) : 0 < calculateFilePathScore p := by
  unfold calculateFilePathScore
  split_ifs <;> norm_num

/-- Helper: a test-like path gets factor 1/20. -/
theorem calcScore_test (p : Str) (h : isTestFile (goToLower p) = true) :
    calculateFilePathScore p = 1/20 := by
  unfold calculateFilePathScore
  rw [if_pos h]

/-- Helper: a main-source path that is not test-like gets factor 13/10. -/
theorem calcScore_main (p : Str) (h1 : isTestFile (goToLower p) = false)
    (h2 : isMainSourceFile (goToLower p) = true) : calculateFilePathScore p = 13/10 := by
  unfold calculateFilePathScore
  rw [if_neg (by rw [h1]; exact Bool.false_ne_true), if_pos h2]

/-- Helper: a generated/vendor path that is neither test-like nor main-source
gets factor 1/5. -/
theorem calcScore_vendor (p : Str) (h1 : isTestFile (goToLower p) = false)
    (h2 : isMainSourceFile (goToLower p) = false) (h3 : isGeneratedOrVendor (goToLower p) = true) :
    calculateFilePathScore p = 1/5 := by
  unfold calculateFilePathScore
  rw [if_neg (by rw [h1]; exact Bool.false_ne_true),
    if_neg (by rw [h2]; exact Bool.false_ne_true), if_pos h3]

/-- Helper: any other path is unaffected (factor 1). -/
theorem calcScore_neutral (p : Str) (h1 : isTestFile (goToLower p) = false)
    (h2 : isMainSourceFile (goToLower p) = false) (h3 : isGeneratedOrVendor (goToLower p) = false) :
    calculateFilePathScore p = 1 := by
  unfold calculateFilePathScore
  rw [if_neg (by rw [h1]; exact Bool.false_ne_true),
    if_neg (by rw [h2]; exact Bool.false_ne_true),
    if_neg (by rw [h3]; exact Bool.false_ne_true)]

/-- Helper: element i of applyHybridScoring is scoreChunk of the i-th candidate. -/
theorem applyHybridScoring_get (cfg : SearchConfig) (query : Str)
    (chunks : List CodeChunk) (scores : List ℚ) (i : Nat)
    (hi : i < chunks.length) (hs : i < scores.length)
    (hr : i < (applyHybridScoring cfg query chunks scores).length) :
    (applyHybridScoring cfg query chunks scores).get ⟨i, hr⟩ =
      scoreChunk cfg (goToLower query) (goFields (goToLower query))
        (chunks.get ⟨i, hi⟩) (scores.get ⟨i, hs⟩) := by
  simp [applyHybridScoring, List.get_eq_getElem, List.getElem_map, List.getElem_zip]

/-- Helper: the structure of scoreChunk when the exact-match test succeeds. -/
theorem scoreChunk_exact (cfg : SearchConfig) (ql : Str) (qw : List Str)
    (chunk : CodeChunk) (s : ℚ) (hc : goContains (goToLower chunk.content) ql = true) :
    scoreChunk cfg ql qw chunk s =
      { chunk := chunk, semanticScore := s, exactMatch := true,
        hybridScore := (s * cfg.semanticWeight + cfg.exactMatchBoost) *
          calculateFilePathScore chunk.filePath,
        matchPositions := findMatchPositions (goToLower chunk.content) ql } := by
  unfold scoreChunk
  rw [if_pos hc]

/-- Helper: the structure of scoreChunk when there is no exact match and no
partially matched word. -/
theorem scoreChunk_no_match (cfg : SearchConfig) (ql : Str) (qw : List Str)
    (chunk : CodeChunk) (s : ℚ) (hc : goContains (goToLower chunk.content) ql = false)
    (hm : matchedWordsCount qw (goToLower chunk.content) = 0) :
    scoreChunk cfg ql qw chunk s =
      { chunk := chunk, semanticScore := s, exactMatch := false,
        hybridScore := (s * cfg.semanticWeight) * calculateFilePathScore chunk.filePath,
        matchPositions := some [] } := by
  unfold scoreChunk
  rw [if_neg (by rw [hc]; exact Bool.false_ne_true), if_neg (by rw [hm]; simp)]

/-- Helper: sorting two results whose second scores at least as high as the
first puts the second one first. -/
theorem sortPair (a b : SearchResult) (h : ¬ b.hybridScore < a.hybridScore) :
    sortByHybridDesc [a, b] = [b, a] := by
  unfold sortByHybridDesc
  rw [List.foldr_cons, List.foldr_cons, List.foldr_nil]
  show insertDesc a [b] = [b, a]
  unfold insertDesc
  rw [if_neg h]
  rfl

/-- C2 counterexample: the claim says every match byte-offset is recorded, but
the scan in findMatchPositions advances past each found match, so overlapping
occurrences are skipped: with query "aa" and content "aaa" the code records
only offset 0 although the query also occurs verbatim at offset 1. -/
theorem C2_overlap_offsets_counterexample :
    ((applyHybridScoring scenarioCfg ("aa").data [overlapChunk] [1]).map
        (fun r => r.matchPositions) = [some [0]])
    ∧ specOccursAt ("aaa").data ("aa").data 1 = true
    ∧ ¬ (1 ∈ ([0] : List Nat)) := by
  refine ⟨by decide, by decide, by decide⟩

/-- C2 (amended): for every candidate, the hybrid score before path adjustment
is semanticScore * semanticWeight plus, additively, the exact-match boost when
the lowercased query occurs in the lowercased content — with the byte-offsets
of the left-to-right non-overlapping matches recorded — and otherwise
(matchedWords / totalWords) * 0.3; the final score multiplies in the path
factor.  The scenario: semantic scores 0.8 (no match, src/Foo) and 0.6 (exact
match, src/Bar) with weight 0.7 and boost 1.5 yield 0.56 and 1.92, ordering
Bar before Foo. -/
theorem C2_hybrid_score_formula (cfg : SearchConfig) (query : Str)
    (chunks : List CodeChunk) (scores : List ℚ)
    (i : Nat) (hi : i < chunks.length) (hs : i < scores.length)
    (hr : i < (applyHybridScoring cfg query chunks scores).length) :
    (((applyHybridScoring cfg query chunks scores).get ⟨i, hr⟩).hybridScore =
        ((scores.get ⟨i, hs⟩) * cfg.semanticWeight +
          (if goContains (goToLower (chunks.get ⟨i, hi⟩).content) (goToLower query) then
            cfg.exactMatchBoost
          else
            ((matchedWordsCount (goFields (goToLower query))
                (goToLower (chunks.get ⟨i, hi⟩).content) : ℚ) /
              ((goFields (goToLower query)).length : ℚ)) * (3/10))) *
        calculateFilePathScore (chunks.get ⟨i, hi⟩).filePath
      ∧ ((applyHybridScoring cfg query chunks scores).get ⟨i, hr⟩).exactMatch =
          goContains (goToLower (chunks.get ⟨i, hi⟩).content) (goToLower query)
      ∧ (((applyHybridScoring cfg query chunks scores).get ⟨i, hr⟩).exactMatch = true →
          ((applyHybridScoring cfg query chunks scores).get ⟨i, hr⟩).matchPositions =
            findMatchPositions (goToLower (chunks.get ⟨i, hi⟩).content) (goToLower query)))
    ∧ ((applyHybridScoring scenarioCfg ("handler").data [fooChunk, barChunk] [4/5, 3/5]).map
          (fun r => r.hybridScore) = [14/25, 48/25]
      ∧ (sortByHybridDesc (applyHybridScoring scenarioCfg ("handler").data [fooChunk, barChunk]
          [4/5, 3/5])).map (fun r => r.chunk.filePath) = [("src/Bar").data, ("src/Foo").data]) := by
  constructor
  · rw [applyHybridScoring_get cfg query chunks scores i hi hs hr]
    rcases Bool.eq_false_or_eq_true
        (goContains (goToLower (chunks.get ⟨i, hi⟩).content) (goToLower query)) with hcb | hcb
    · rw [if_pos hcb, scoreChunk_exact cfg (goToLower query) (goFields (goToLower query))
        (chunks.get ⟨i, hi⟩) (scores.get ⟨i, hs⟩) hcb]
      exact ⟨rfl, hcb.symm, fun _ => rfl⟩
    · have hcn : ¬ (goContains (goToLower (chunks.get ⟨i, hi⟩).content) (goToLower query) = true) := by
        rw [hcb]; exact Bool.false_ne_true
      rw [if_neg hcn]
      unfold scoreChunk
      rw [if_neg hcn]
      refine ⟨?_, hcb.symm, fun h => nomatch h⟩
      by_cases hm : 0 < matchedWordsCount (goFields (goToLower query))
          (goToLower (chunks.get ⟨i, hi⟩).content) ∧ 0 < (goFields (goToLower query)).length
      · rw [if_pos hm]
      · rw [if_neg hm]
        have hz : ((matchedWordsCount (goFields (goToLower query))
            (goToLower (chunks.get ⟨i, hi⟩).content) : ℚ) /
              ((goFields (goToLower query)).length : ℚ)) * (3/10) = 0 := by
          rcases not_and_or.mp hm with h0 | h0
          · have h1 : matchedWordsCount (goFields (goToLower query))
                (goToLower (chunks.get ⟨i, hi⟩).content) = 0 := by omega
            rw [h1]
            simp
          · have h1 : (goFields (goToLower query)).length = 0 := by omega
            rw [h1]
            simp
        rw [hz, add_zero]
  · have e : applyHybridScoring scenarioCfg ("handler").data [fooChunk, barChunk] [4/5, 3/5] =
        [scoreChunk scenarioCfg (goToLower ("handler").data)
          (goFields (goToLower ("handler").data)) fooChunk (4/5),
        scoreChunk scenarioCfg (goToLower ("handler").data)
          (goFields (goToLower ("handler").data)) barChunk (3/5)] := rfl
    rw [e, scoreChunk_no_match _ _ _ _ _ (by decide) (by decide),
      scoreChunk_exact _ _ _ _ _ (by decide),
      calcScore_neutral fooChunk.filePath (by decide) (by decide) (by decide),
      calcScore_neutral barChunk.filePath (by decide) (by decide) (by decide)]
    constructor
    · rw [List.map_cons, List.map_cons, List.map_nil]
      show [(4/5 : ℚ) * scenarioCfg.semanticWeight * 1,
        ((3/5 : ℚ) * scenarioCfg.semanticWeight + scenarioCfg.exactMatchBoost) * 1] = _
      show [(4/5 : ℚ) * (7/10) * 1, ((3/5 : ℚ) * (7/10) + 3/2) * 1] = _
      norm_num
    · rw [sortPair _ _ (by
        show ¬ (((3/5 : ℚ) * scenarioCfg.semanticWeight + scenarioCfg.exactMatchBoost) * 1 <
          (4/5 : ℚ) * scenarioCfg.semanticWeight * 1)
        show ¬ (((3/5 : ℚ) * (7/10) + 3/2) * 1 < (4/5 : ℚ) * (7/10) * 1)
        norm_num)]
      rw [List.map_cons, List.map_cons, List.map_nil]
      rfl

/-- Witness for C2_hybrid_score_formula at the scenario's Bar candidate. -/
theorem C2_hybrid_score_formula_witness :
    ((applyHybridScoring scenarioCfg ("handler").data [barChunk] [3/5]).get
        ⟨0, by decide⟩).hybridScore =
      ((3/5 : ℚ) * scenarioCfg.semanticWeight +
        (if goContains (goToLower barChunk.content) (goToLower (("handler").data)) then
          scenarioCfg.exactMatchBoost
        else
          ((matchedWordsCount (goFields (goToLower (("handler").data)))
              (goToLower barChunk.content) : ℚ) /
            ((goFields (goToLower (("handler").data))).length : ℚ)) * (3/10))) *
      calculateFilePathScore barChunk.filePath :=
  (C2_hybrid_score_formula scenarioCfg (("handler").data) [barChunk] [3/5]
    0 (by decide) (by decide) (by decide)).1.1

/-- C4: the claim says scoring an empty query terminates and marks nothing as
an exact match; the code does the opposite — Go strings.Contains(s, "") is
true, so every candidate is marked exact, and findMatchPositions never
terminates because the loop position never advances for an empty query. -/
theorem C4_empty_query_failing_input :
    ((applyHybridScoring scenarioCfg [] [c4Chunk] [1]).map (fun r => r.exactMatch) = [true])
    ∧ ((applyHybridScoring scenarioCfg [] [c4Chunk] [1]).map (fun r => r.matchPositions) = [none])
    ∧ (∀ fuel pos acc, findMatchPositionsAux (goToLower c4Chunk.content) [] fuel pos acc = none) := by
  refine ⟨by decide, by decide, fun fuel pos acc => findMatchPositionsAux_empty_query _ fuel pos acc⟩

/-- C5: the path adjustment multiplies the hybrid score by exactly one factor,
chosen first-match-wins: test-like path 0.05, then main-source 1.3, then
vendor/build/generated 0.2, otherwise 1.0; a /tests/Auth_test.ext chunk with
hybrid base 1.0 ends at 0.05. -/
theorem C5_path_multiplier :
    (∀ p : Str, isTestFile (goToLower p) = true → calculateFilePathScore p = 1/20)
    ∧ (∀ p : Str, isTestFile (goToLower p) = false → isMainSourceFile (goToLower p) = true →
        calculateFilePathScore p = 13/10)
    ∧ (∀ p : Str, isTestFile (goToLower p) = false → isMainSourceFile (goToLower p) = false →
        isGeneratedOrVendor (goToLower p) = true → calculateFilePathScore p = 1/5)
    ∧ (∀ p : Str, isTestFile (goToLower p) = false → isMainSourceFile (goToLower p) = false →
        isGeneratedOrVendor (goToLower p) = false → calculateFilePathScore p = 1)
    ∧ (∀ cfg qLower qWords (chunk : CodeChunk) (s : ℚ), ∃ pre : ℚ,
        (scoreChunk cfg qLower qWords chunk s).hybridScore =
          pre * calculateFilePathScore chunk.filePath)
    ∧ ((applyHybridScoring ⟨5, 1, 3/2⟩ ("zzz").data [testPathChunk] [1]).map
          (fun r => r.hybridScore) = [1/20]
      ∧ calculateFilePathScore ("/tests/Auth_test.ext").data = 1/20) := by
  refine ⟨calcScore_test, calcScore_main, calcScore_vendor, calcScore_neutral, ?_, ?_, ?_⟩
  · intro cfg qLower qWords chunk s
    unfold scoreChunk
    by_cases hc : goContains (goToLower chunk.content) qLower = true
    · rw [if_pos hc]
      exact ⟨s * cfg.semanticWeight + cfg.exactMatchBoost, rfl⟩
    · rw [if_neg hc]
      exact ⟨(if 0 < matchedWordsCount qWords (goToLower chunk.content) ∧ 0 < qWords.length then
        s * cfg.semanticWeight + ((matchedWordsCount qWords (goToLower chunk.content) : ℚ) /
          (qWords.length : ℚ)) * (3/10)
      else s * cfg.semanticWeight), rfl⟩
  · have e : applyHybridScoring ⟨5, 1, 3/2⟩ ("zzz").data [testPathChunk] [1] =
        [scoreChunk ⟨5, 1, 3/2⟩ (goToLower ("zzz").data)
          (goFields (goToLower ("zzz").data)) testPathChunk 1] := rfl
    rw [e, scoreChunk_no_match _ _ _ _ _ (by decide) (by decide),
      calcScore_test testPathChunk.filePath (by decide)]
    rw [List.map_cons, List.map_nil]
    show [(1 : ℚ) * (1 : ℚ) * (1/20)] = _
    norm_num
  · exact calcScore_test _ (by decide)

/-- Witness for C5_path_multiplier: a /lib/ path gets the 1.3 boost. -/
theorem C5_path_multiplier_witness : calculateFilePathScore ("/lib/a.go").data = 13/10 :=
  C5_path_multiplier.2.1 (("/lib/a.go").data) (by decide) (by decide)

/-- C9: with equal semantic scores and equal path classification, an
exact-match candidate scores strictly higher than a candidate with no match at
all (the boost is additive before the shared positive path multiplier). -/
theorem C9_exact_beats_no_match (cfg : SearchConfig) (query : Str)
    (chE chN : CodeChunk) (s : ℚ)
    (hb : 0 < cfg.exactMatchBoost)
    (hpath : calculateFilePathScore chE.filePath = calculateFilePathScore chN.filePath)
    (hE : goContains (goToLower chE.content) (goToLower query) = true)
    (hN : goContains (goToLower chN.content) (goToLower query) = false)
    (hNw : matchedWordsCount (goFields (goToLower query)) (goToLower chN.content) = 0) :
    (scoreChunk cfg (goToLower query) (goFields (goToLower query)) chN s).hybridScore <
      (scoreChunk cfg (goToLower query) (goFields (goToLower query)) chE s).hybridScore := by
  rw [scoreChunk_exact cfg _ _ chE s hE, scoreChunk_no_match cfg _ _ chN s hN hNw]
  show (s * cfg.semanticWeight) * calculateFilePathScore chN.filePath <
    (s * cfg.semanticWeight + cfg.exactMatchBoost) * calculateFilePathScore chE.filePath
  rw [hpath]
  have hpos := calculateFilePathScore_pos chN.filePath
  have hlt : s * cfg.semanticWeight < s * cfg.semanticWeight + cfg.exactMatchBoost := by linarith
  exact mul_lt_mul_of_pos_right hlt hpos

/-- Witness for C9 at the scenario candidates. -/
theorem C9_exact_beats_no_match_witness :
    (scoreChunk scenarioCfg (goToLower (("handler").data))
        (goFields (goToLower (("handler").data))) fooChunk (1/2)).hybridScore <
      (scoreChunk scenarioCfg (goToLower (("handler").data))
        (goFields (goToLower (("handler").data))) barChunk (1/2)).hybridScore :=
  C9_exact_beats_no_match scenarioCfg (("handler").data) barChunk fooChunk (1/2)
    (by show (0 : ℚ) < 3/2; norm_num)
    (by rw [calcScore_neutral barChunk.filePath (by decide) (by decide) (by decide),
      calcScore_neutral fooChunk.filePath (by decide) (by decide) (by decide)])
    (by decide) (by decide) (by decide)

/-- C10: when the vector backend returns zero candidate chunks, Search returns
an empty result list and no error. -/
theorem C10_zero_candidates_ok (cfg : SearchConfig)
    (generateEmbedding : Str → Except Str (List ℚ))
    (dbSearch : List ℚ → Str → Nat → Except Str (List CodeChunk × List ℚ))
    (query repoPath : Str) (emb : List ℚ) (ss : List ℚ)
    (hg : generateEmbedding query = .ok emb)
    (hd : dbSearch emb repoPath (cfg.maxResults * 3) = .ok ([], ss)) :
    Search cfg generateEmbedding dbSearch query repoPath = .ok [] := by
  unfold Search
  rw [hg]
  dsimp only
  rw [hd]
  rfl

/-- Witness for C10 with concrete oracles. -/
theorem C10_zero_candidates_ok_witness :
    Search scenarioCfg (fun _ => .ok []) (fun _ _ _ => .ok ([], []))
      ("q").data ("r").data = .ok [] :=
  C10_zero_candidates_ok scenarioCfg (fun _ => .ok []) (fun _ _ _ => .ok ([], []))
    (("q").data) (("r").data) [] [] rfl rfl

/-! ## Theorems about the file-hash cache -/

/-- Helper: looking up the freshly inserted key yields the inserted value. -/
theorem mapInsert_lookup_self (k : Str) (v : FileHash) (l : List (Str × FileHash)) :
    (mapInsert k v l).lookup k = some v := by
  induction l with
  | nil => simp [mapInsert, List.lookup]
  | cons a rest ih =>
    obtain ⟨k', v'⟩ := a
    unfold mapInsert
    by_cases h : k' = k
    · rw [if_pos h]
      simp [List.lookup]
    · rw [if_neg h]
      have hb : (k == k') = false := beq_eq_false_iff_ne.mpr (Ne.symm h)
      simp [List.lookup, hb, ih]

/-- Helper: inserting under one key leaves every other key's binding alone. -/
theorem mapInsert_lookup_other (k g : Str) (v : FileHash) (l : List (Str × FileHash))
    (hne : g ≠ k) : (mapInsert k v l).lookup g = l.lookup g := by
  induction l with
  | nil =>
    have hb : (g == k) = false := beq_eq_false_iff_ne.mpr hne
    simp [mapInsert, List.lookup, hb]
  | cons a rest ih =>
    obtain ⟨k', v'⟩ := a
    unfold mapInsert
    by_cases h : k' = k
    · rw [if_pos h]
      have hb : (g == k) = false := beq_eq_false_iff_ne.mpr hne
      have hb' : (g == k') = false := beq_eq_false_iff_ne.mpr (h ▸ hne)
      simp [List.lookup, hb, hb']
    · rw [if_neg h]
      by_cases hgk : g = k'
      · have hb : (g == k') = true := beq_iff_eq.mpr hgk
        simp [List.lookup, hb]
      · have hb : (g == k') = false := beq_eq_false_iff_ne.mpr hgk
        simp [List.lookup, hb, ih]

/-- Helper: needsReindex only looks at the entry stored under the queried
path, so caches agreeing there agree on the answer. -/
theorem needsReindex_congr (hashFn : Str → Str) (fs : Str → Option Str)
    (c c' : FileHashCache) (f : Str)
    (h : c.hashes.lookup f = c'.hashes.lookup f) :
    needsReindex hashFn fs (some c) f = needsReindex hashFn fs (some c') f := by
  unfold needsReindex
  cases hfs : fs f with
  | none => rfl
  | some content =>
    dsimp only
    rw [h]

/-- C8: saving the loaded cache and loading it back for the same repository
path restores the same in-memory hash map (the cache-level updated timestamp
is the only field Save rewrites). -/
theorem C8_save_load_round_trip (keyFn : Str → Str) (disk : Disk) (c : FileHashCache)
    (now now2 : Nat) (disk2 : Disk)
    (hsave : saveCache keyFn (some c) disk now true = .ok disk2) :
    (loadCache keyFn disk2 c.repoPath now2).hashes = c.hashes
    ∧ (loadCache keyFn disk2 c.repoPath now2).repoPath = c.repoPath := by
  have hd : (fun k => if k = keyFn c.repoPath then some { c with updatedAt := now }
      else disk k) = disk2 := Except.ok.inj hsave
  have hl : loadCache keyFn disk2 c.repoPath now2 = { c with updatedAt := now } := by
    unfold loadCache
    rw [← hd]
    simp
  rw [hl]
  exact ⟨rfl, rfl⟩

/-- Witness for C8 on a concrete one-entry run. -/
theorem C8_save_load_round_trip_witness :
    (loadCache (fun s => s) c8disk2 (("r").data) 9).hashes = []
    ∧ (loadCache (fun s => s) c8disk2 (("r").data) 9).repoPath = ("r").data :=
  C8_save_load_round_trip (fun s => s) (fun _ => none) ⟨("r").data, [], 0⟩ 5 9 c8disk2 rfl

/-- C6: after Update records a file, NeedsReindex answers false exactly when
the current content hashes to the recorded hash — with a collision-free
digest, exactly when the bytes are unchanged — and any file without a cache
entry still reindexes. -/
theorem C6_needs_reindex_iff (hashFn : Str → Str) (hinj : Function.Injective hashFn)
    (fs fs2 : Str → Option Str) (c : FileHashCache) (f : Str)
    (content content2 : Str) (cnt now : Nat) (c2 : FileHashCache)
    (h1 : fs f = some content) (h2 : fs2 f = some content2)
    (hupd : updateCache hashFn fs (some c) f cnt now = .ok c2) :
    (needsReindex hashFn fs2 (some c2) f = .ok false ↔ content2 = content)
    ∧ (∀ (d : FileHashCache) (g : Str) (cg : Str), d.hashes.lookup g = none →
        fs2 g = some cg → needsReindex hashFn fs2 (some d) g = .ok true) := by
  constructor
  · have hc2 : c2 = { c with
        hashes := mapInsert f ⟨f, hashFn content, now, cnt⟩ c.hashes } := by
      unfold updateCache at hupd
      rw [h1] at hupd
      exact (Except.ok.inj hupd).symm
    unfold needsReindex
    rw [h2, hc2]
    simp only [mapInsert_lookup_self]
    constructor
    · intro h
      have hb := Except.ok.inj h
      have heq : hashFn content = hashFn content2 := by
        by_contra hne
        rw [decide_eq_false_iff_not] at hb
        exact hb hne
      exact (hinj heq).symm
    · intro h
      rw [h]
      simp
  · intro d g cg hnone hfs
    unfold needsReindex
    dsimp only
    rw [hfs]
    dsimp only
    rw [hnone]

/-- Witness for C6 with the identity digest on a one-file cache. -/
theorem C6_needs_reindex_iff_witness :
    needsReindex (fun s => s) (fun _ => some ("x").data)
      (some ⟨("r").data, [(("f").data, ⟨("f").data, ("x").data, 7, 3⟩)], 0⟩)
      (("f").data) = .ok false :=
  (C6_needs_reindex_iff (fun s => s) (fun _ _ h => h)
    (fun _ => some ("x").data) (fun _ => some ("x").data)
    ⟨("r").data, [], 0⟩ (("f").data) (("x").data) (("x").data) 3 7
    ⟨("r").data, [(("f").data, ⟨("f").data, ("x").data, 7, 3⟩)], 0⟩
    rfl rfl rfl).1.mpr rfl

/-! ## Theorems about the indexing orchestrator -/

/-- Helper: the hash map loaded from a given disk does not depend on the load
time (the time only seeds a fresh empty cache's updated-at field). -/
theorem loadCache_hashes_time (keyFn : Str → Str) (disk : Disk) (repoPath : Str)
    (n n' : Nat) :
    (loadCache keyFn disk repoPath n).hashes = (loadCache keyFn disk repoPath n').hashes := by
  unfold loadCache
  cases disk (keyFn repoPath) <;> rfl

/-- Helper: files reported as chunked by the worker fold are scanned files. -/
theorem runFiles_chunked_subset (hashFn : Str → Str) (fs : Str → Option Str)
    (chunkFn : Str → Str → Except Str (List CodeChunk))
    (inc frc : Bool) (now : Nat) :
    ∀ (files : List Str) (mem : Option FileHashCache),
      ∀ f ∈ (runFiles hashFn fs chunkFn inc frc now mem files).2.2, f ∈ files := by
  intro files
  induction files with
  | nil => intro mem f hf; simp [runFiles] at hf
  | cons f0 rest ih =>
    intro mem f hf
    simp only [runFiles] at hf
    rcases List.mem_append.mp hf with h1 | h2
    · rcases Bool.eq_false_or_eq_true
          ((processOneFile hashFn fs chunkFn inc frc now mem f0).2.2) with hb | hb
      · rw [hb] at h1
        simp at h1
        rw [h1]
        exact List.mem_cons_self f0 rest
      · rw [hb] at h1
        simp at h1
    · exact List.mem_cons_of_mem f0
        (ih (processOneFile hashFn fs chunkFn inc frc now mem f0).1 f h2)

/-- Helper: processing one file keeps the cache loaded and can only change
the binding of that very file's path. -/
theorem processOneFile_mem (hashFn : Str → Str) (fs : Str → Option Str)
    (chunkFn : Str → Str → Except Str (List CodeChunk))
    (inc frc : Bool) (now : Nat) (c : FileHashCache) (f : Str) :
    ∃ c', (processOneFile hashFn fs chunkFn inc frc now (some c) f).1 = some c'
      ∧ ∀ g, g ≠ f → c'.hashes.lookup g = c.hashes.lookup g := by
  unfold processOneFile
  by_cases hs : shouldSkip hashFn fs inc frc (some c) f = true
  · rw [if_pos hs]
    exact ⟨c, rfl, fun g _ => rfl⟩
  · rw [if_neg hs]
    cases hrc : (match fs f with
        | none => (.error ("failed to read file").data : Except Str (List CodeChunk))
        | some content => chunkFn f content) with
    | error e => exact ⟨c, rfl, fun g _ => rfl⟩
    | ok chunks =>
      dsimp only
      cases hinc : inc with
      | false =>
        refine ⟨c, ?_, fun g _ => rfl⟩
        rw [if_neg Bool.false_ne_true]
      | true =>
        rw [if_pos rfl]
        cases hu : updateCache hashFn fs (some c) f chunks.length now with
        | error e => exact ⟨c, rfl, fun g _ => rfl⟩
        | ok cu =>
          refine ⟨cu, rfl, fun g hg => ?_⟩
          unfold updateCache at hu
          cases hff : fs f with
          | none => rw [hff] at hu; exact absurd hu (by simp)
          | some content =>
            rw [hff] at hu
            have hcu : cu = { c with
                hashes := mapInsert f ⟨f, hashFn content, now, chunks.length⟩ c.hashes } :=
              (Except.ok.inj hu).symm
            rw [hcu]
            exact mapInsert_lookup_other f g _ c.hashes hg

/-- Helper: in incremental non-forced mode, a file that was chunked had
NeedsReindex answer true against the cache state it was checked against. -/
theorem processOneFile_chunked (hashFn : Str → Str) (fs : Str → Option Str)
    (chunkFn : Str → Str → Except Str (List CodeChunk)) (now : Nat)
    (c : FileHashCache) (f : Str)
    (hb : (processOneFile hashFn fs chunkFn true false now (some c) f).2.2 = true) :
    needsReindex hashFn fs (some c) f = .ok true := by
  unfold processOneFile at hb
  by_cases hs : shouldSkip hashFn fs true false (some c) f = true
  · rw [if_pos hs] at hb
    exact absurd hb (by simp)
  · rw [if_neg hs] at hb
    cases hrc : (match fs f with
        | none => (.error ("failed to read file").data : Except Str (List CodeChunk))
        | some content => chunkFn f content) with
    | error e =>
      rw [hrc] at hb
      exact absurd hb (by simp)
    | ok chunks =>
      cases hff : fs f with
      | none =>
        rw [hff] at hrc
        exact absurd hrc (by simp)
      | some content =>
        have hssf : shouldSkip hashFn fs true false (some c) f = false :=
          Bool.eq_false_iff.mpr hs
        unfold shouldSkip at hssf
        rw [if_pos ⟨Bool.false_ne_true, rfl⟩] at hssf
        unfold needsReindex
        dsimp only
        rw [hff]
        dsimp only
        cases hlk : c.hashes.lookup f with
        | none => rfl
        | some cached =>
          dsimp only
          rcases Bool.eq_false_or_eq_true (decide (cached.hash ≠ hashFn content)) with hd | hd
          · rw [hd]
          · have hn : needsReindex hashFn fs (some c) f = .ok false := by
              unfold needsReindex
              dsimp only
              rw [hff]
              dsimp only
              rw [hlk]
              dsimp only
              rw [hd]
            rw [hn] at hssf
            exact absurd hssf (by simp)

/-- Helper: every file the worker fold chunks, starting from cache `c` in
incremental non-forced mode, had NeedsReindex answer true against `c`
(distinct paths keep the earlier files' updates from masking the check). -/
theorem runFiles_chunked_needs (hashFn : Str → Str) (fs : Str → Option Str)
    (chunkFn : Str → Str → Except Str (List CodeChunk)) (now : Nat) :
    ∀ (files : List Str) (c : FileHashCache), files.Nodup →
      ∀ f ∈ (runFiles hashFn fs chunkFn true false now (some c) files).2.2,
        needsReindex hashFn fs (some c) f = .ok true := by
  intro files
  induction files with
  | nil => intro c _ f hf; simp [runFiles] at hf
  | cons f0 rest ih =>
    intro c hnd f hf
    have hnd' := List.nodup_cons.mp hnd
    simp only [runFiles] at hf
    rcases List.mem_append.mp hf with h1 | h2
    · rcases Bool.eq_false_or_eq_true
          ((processOneFile hashFn fs chunkFn true false now (some c) f0).2.2) with hb | hb
      · rw [hb] at h1
        simp at h1
        rw [h1]
        exact processOneFile_chunked hashFn fs chunkFn now c f0 hb
      · rw [hb] at h1
        simp at h1
    · obtain ⟨c', hc', hpres⟩ := processOneFile_mem hashFn fs chunkFn true false now c f0
      rw [hc'] at h2
      have hmem := ih c' hnd'.2 f h2
      have hfr : f ∈ rest := by
        have := runFiles_chunked_subset hashFn fs chunkFn true false now rest (some c') f h2
        exact this
      have hne : f ≠ f0 := fun he => hnd'.1 (he ▸ hfr)
      rw [needsReindex_congr hashFn fs c c' f (hpres f hne).symm]
      exact hmem

/-- C1: in an incremental, non-forced indexing run where chunks were produced
and the embedding call or the vector-store write fails, the job ends failed
(never completed), the persisted cache directory is untouched, and after the
cache is next loaded from disk, NeedsReindex still answers true for every
file that was chunked during the failed run. -/
theorem C1_failed_run_preserves_cache (hashFn : Str → Str) (fs : Str → Option Str)
    (chunkFn : Str → Str → Except Str (List CodeChunk)) (keyFn : Str → Str)
    (repoPath : Str) (files : List Str) (disk0 : Disk) (st0 : Option FileHashCache)
    (embedOk storeOk writeOk : Bool) (now now2 : Nat)
    (hnodup : files.Nodup)
    (hfail : embedOk = false ∨ storeOk = false)
    (hchunks : (runFiles hashFn fs chunkFn true false now
        (some (loadCache keyFn disk0 repoPath now)) files).2.1 ≠ []) :
    (doIndex hashFn fs chunkFn keyFn true false repoPath (.ok files) disk0 st0
        embedOk storeOk writeOk now).status = .failed
    ∧ (doIndex hashFn fs chunkFn keyFn true false repoPath (.ok files) disk0 st0
        embedOk storeOk writeOk now).status ≠ .completed
    ∧ (doIndex hashFn fs chunkFn keyFn true false repoPath (.ok files) disk0 st0
        embedOk storeOk writeOk now).disk = disk0
    ∧ ∀ f ∈ (doIndex hashFn fs chunkFn keyFn true false repoPath (.ok files) disk0 st0
        embedOk storeOk writeOk now).chunkedFiles,
        needsReindex hashFn fs
          (some (loadCache keyFn
            (doIndex hashFn fs chunkFn keyFn true false repoPath (.ok files) disk0 st0
              embedOk storeOk writeOk now).disk repoPath now2)) f = .ok true := by
  have hout : doIndex hashFn fs chunkFn keyFn true false repoPath (.ok files) disk0 st0
      embedOk storeOk writeOk now =
    doIndexAfterScan keyFn true disk0
      (runFiles hashFn fs chunkFn true false now
        (some (loadCache keyFn disk0 repoPath now)) files)
      embedOk storeOk writeOk now := rfl
  have hlen : (runFiles hashFn fs chunkFn true false now
      (some (loadCache keyFn disk0 repoPath now)) files).2.1.length ≠ 0 :=
    fun h0 => hchunks (List.eq_nil_of_length_eq_zero h0)
  have hfailed : doIndexAfterScan keyFn true disk0
      (runFiles hashFn fs chunkFn true false now
        (some (loadCache keyFn disk0 repoPath now)) files)
      embedOk storeOk writeOk now =
    ⟨.failed, disk0,
      (runFiles hashFn fs chunkFn true false now
        (some (loadCache keyFn disk0 repoPath now)) files).1,
      (runFiles hashFn fs chunkFn true false now
        (some (loadCache keyFn disk0 repoPath now)) files).2.1,
      (runFiles hashFn fs chunkFn true false now
        (some (loadCache keyFn disk0 repoPath now)) files).2.2⟩ := by
    unfold doIndexAfterScan
    rw [if_pos hlen]
    rcases hfail with hf | hf
    · rw [hf, if_neg Bool.false_ne_true]
    · rcases Bool.eq_false_or_eq_true embedOk with he | he
      · rw [he, if_pos rfl, hf, if_neg Bool.false_ne_true]
      · rw [he, if_neg Bool.false_ne_true]
  rw [hout, hfailed]
  refine ⟨rfl, fun h => IndexStatus.noConfusion h, rfl, ?_⟩
  intro f hf
  have h1 := runFiles_chunked_needs hashFn fs chunkFn now files
    (loadCache keyFn disk0 repoPath now) hnodup f hf
  rw [needsReindex_congr hashFn fs (loadCache keyFn disk0 repoPath now2)
    (loadCache keyFn disk0 repoPath now) f
    (by rw [loadCache_hashes_time keyFn disk0 repoPath now2 now])]
  exact h1

/-- Witness for C1 on a one-file repo whose embedding call fails. -/
theorem C1_failed_run_preserves_cache_witness :
    (doIndex (fun s => s) (fun _ => some ("code").data) (fun _ _ => .ok [c4Chunk])
        (fun s => s) true false ("repo").data (.ok [("f").data]) (fun _ => none) none
        false true true 0).status = .failed
    ∧ (doIndex (fun s => s) (fun _ => some ("code").data) (fun _ _ => .ok [c4Chunk])
        (fun s => s) true false ("repo").data (.ok [("f").data]) (fun _ => none) none
        false true true 0).disk = (fun _ => none) :=
  ⟨(C1_failed_run_preserves_cache (fun s => s) (fun _ => some ("code").data)
      (fun _ _ => .ok [c4Chunk]) (fun s => s) ("repo").data [("f").data] (fun _ => none) none
      false true true 0 1 (by decide) (Or.inl rfl) (by decide)).1,
   (C1_failed_run_preserves_cache (fun s => s) (fun _ => some ("code").data)
      (fun _ _ => .ok [c4Chunk]) (fun s => s) ("repo").data [("f").data] (fun _ => none) none
      false true true 0 1 (by decide) (Or.inl rfl) (by decide)).2.2.1⟩

/-! ## Chunker lemmas (C3, C7) -/

/-- Splitting on newlines always yields at least one field. -/
theorem goSplitLines_ne_nil (s : Str) : goSplitLines s ≠ [] := by
  induction s with
  | nil => simp [goSplitLines]
  | cons c rest ih =>
    simp only [goSplitLines]
    by_cases hc : (c == '\n') = true
    · rw [if_pos hc]
      simp
    · rw [if_neg hc]
      rcases hrec : goSplitLines rest with _ | ⟨l, ls⟩
      · exact absurd hrec ih
      · simp

/-- The number of newline-split fields is the newline count plus one. -/
theorem goSplitLines_length (s : Str) : (goSplitLines s).length = countNL s + 1 := by
  induction s with
  | nil => simp [goSplitLines, countNL]
  | cons c rest ih =>
    simp only [goSplitLines]
    have hcnt : countNL (c :: rest) = countNL rest + if (c == '\n') = true then 1 else 0 := by
      simp [countNL, List.countP_cons]
    by_cases hc : (c == '\n') = true
    · rw [if_pos hc]
      rw [hcnt, if_pos hc]
      simp [ih]
    · rw [if_neg hc]
      rcases hrec : goSplitLines rest with _ | ⟨l, ls⟩
      · exact absurd hrec (goSplitLines_ne_nil rest)
      · rw [hrec] at ih
        rw [hcnt, if_neg hc]
        simp at ih ⊢
        omega

/-- A string whose trim is empty is all whitespace. -/
theorem goTrim_eq_nil_forall (s : Str) (h : goTrim s = []) :
    ∀ x ∈ s, goIsSpace x = true := by
  unfold goTrim at h
  rw [List.reverse_eq_nil_iff, List.dropWhile_eq_nil_iff] at h
  intro x hx
  have hsplit : s.takeWhile goIsSpace ++ s.dropWhile goIsSpace = s :=
    List.takeWhile_append_dropWhile goIsSpace s
  rw [← hsplit] at hx
  rcases List.mem_append.mp hx with h1 | h2
  · exact List.mem_takeWhile_imp h1
  · exact h x (List.mem_reverse.mpr h2)

/-- Generated ids are nonempty strings. -/
theorem genId_ne_nil (n : Nat) : genId n ≠ [] := by
  unfold genId
  intro h
  have := congrArg List.length h
  simp at this

/-- Truncation does not increase the newline count. -/
theorem countNL_take (s : Str) (k : Nat) : countNL (s.take k) ≤ countNL s :=
  List.Sublist.countP_le _ (List.take_sublist k s)

/-- Structure of a chunk accepted by the token chunker's createChunk. -/
theorem createChunk_spec (repoPath filePath language : Str) (lines : List Str)
    (startLine ctr : Nat) (ch : CodeChunk) (ctr2 : Nat)
    (h : createChunk repoPath filePath language lines startLine ctr = (some ch, ctr2)) :
    ch.chunkType = ChunkType.function ∧ ch.parentChunkID = [] ∧
    goTrim (goJoinLines lines) ≠ [] ∧ ch.startLine ≤ ch.endLine ∧
    ((goJoinLines lines).length ≤ 4000 → goTrim ch.content ≠ []) := by
  unfold createChunk at h
  by_cases htr : goTrim (goJoinLines lines) = []
  · rw [if_pos htr] at h
    simp at h
  · rw [if_neg htr] at h
    rw [Prod.mk.injEq] at h
    obtain ⟨h1, h2⟩ := h
    obtain rfl := Option.some.inj h1
    have hlines : lines ≠ [] := by
      intro hl
      rw [hl] at htr
      exact htr rfl
    refine ⟨rfl, rfl, htr, ?_, ?_⟩
    · show startLine ≤ startLine + lines.length - 1
      have : 1 ≤ lines.length := List.length_pos.mpr hlines
      omega
    · intro hlen
      show goTrim (if 4000 < (goJoinLines lines).length then (goJoinLines lines).take 4000
        else goJoinLines lines) ≠ []
      rw [if_neg (by omega)]
      exact htr

/-- Structure of a chunk accepted by the AST chunker's createChunkFromNode. -/
theorem createChunkFromNode_spec (n : AstNode)
    (repoPath filePath language content nodeType : Str) (ctr : Nat)
    (ch : CodeChunk) (ctr2 : Nat)
    (h : createChunkFromNode n repoPath filePath language content nodeType ctr =
      (some ch, ctr2)) :
    ch.chunkType = ChunkType.function ∧ ch.parentChunkID = [] ∧
    ch.startLine = n.startRow + 1 ∧ ch.endLine = n.endRow + 1 ∧
    countNL ch.content ≤ countNL (goSlice content n.startByte n.endByte) := by
  unfold createChunkFromNode at h
  by_cases h1 : n.endByte ≤ n.startByte ∨ content.length < n.endByte
  · rw [if_pos h1] at h
    simp at h
  · rw [if_neg h1] at h
    by_cases h2 : (goTrim (goSlice content n.startByte n.endByte)).length < 10
    · rw [if_pos h2] at h
      simp at h
    · rw [if_neg h2] at h
      rw [Prod.mk.injEq] at h
      obtain ⟨h3, h4⟩ := h
      obtain rfl := Option.some.inj h3
      refine ⟨rfl, rfl, rfl, rfl, ?_⟩
      show countNL (if 4000 < (goSlice content n.startByte n.endByte).length then
        (goSlice content n.startByte n.endByte).take 4000
        else goSlice content n.startByte n.endByte) ≤ _
      by_cases h5 : 4000 < (goSlice content n.startByte n.endByte).length
      · rw [if_pos h5]
        exact countNL_take _ _
      · rw [if_neg h5]

/-- Invariants of the splitLargeChunk line loop: emitted chunks inherit the
split chunk's metadata, their line ranges are ordered, and the pending start
line stays within the original chunk's line span. -/
theorem splitChunkLoop_bounds (base : CodeChunk) (lines : List Str)
    (total maxSize ov : Nat) :
    ∀ (rem : List Str) (i : Nat) (cur : Str) (curStart ctr : Nat),
      curStart ≤ base.startLine + i →
      curStart ≤ base.startLine + (total - 1) →
      (∀ c ∈ (splitChunkLoop base lines total maxSize ov i rem cur curStart ctr).1,
        c.chunkType = base.chunkType ∧ c.parentChunkID = base.parentChunkID ∧
        c.className = base.className ∧ c.startLine ≤ c.endLine) ∧
      (splitChunkLoop base lines total maxSize ov i rem cur curStart ctr).2.2.1 ≤
        base.startLine + (total - 1) := by
  intro rem
  induction rem with
  | nil =>
    intro i cur curStart ctr h1 h2
    simp only [splitChunkLoop]
    exact ⟨fun c hc => absurd hc (List.not_mem_nil c), h2⟩
  | cons l rest ih =>
    intro i cur curStart ctr h1 h2
    simp only [splitChunkLoop]
    by_cases hcond : maxSize < (cur ++ l ++ ("\n").data).length ∧ i < total - 1
    · rw [if_pos hcond]
      rcases hrec : splitChunkLoop base lines total maxSize ov (i + 1) rest
          (joinNL ((lines.drop (i - ov)).take (i + 1 - (i - ov))))
          (base.startLine + (i - ov)) (ctr + 1) with ⟨cs, curF, csF, ctrF⟩
      have hih := ih (i + 1) (joinNL ((lines.drop (i - ov)).take (i + 1 - (i - ov))))
        (base.startLine + (i - ov)) (ctr + 1) (by omega) (by omega)
      rw [hrec] at hih
      dsimp only at hih
      constructor
      · intro c hc
        dsimp only at hc
        rcases List.mem_cons.mp hc with rfl | hc2
        · exact ⟨rfl, rfl, rfl, h1⟩
        · exact hih.1 c hc2
      · exact hih.2
    · rw [if_neg hcond]
      exact ih (i + 1) (cur ++ l ++ ("\n").data) curStart ctr (by omega) h2

/-- splitLargeChunk preserves metadata and keeps line ranges ordered, given
that the split chunk's own line range covers its newline count. -/
theorem splitLargeChunk_spec (chunk : CodeChunk) (maxSize ctr : Nat)
    (hl : chunk.startLine + countNL chunk.content ≤ chunk.endLine) :
    ∀ c ∈ (splitLargeChunk chunk maxSize ctr).1,
      c.chunkType = chunk.chunkType ∧ c.parentChunkID = chunk.parentChunkID ∧
      c.className = chunk.className ∧ c.startLine ≤ c.endLine := by
  intro c hc
  simp only [splitLargeChunk] at hc
  set L := goSplitLines chunk.content with hL
  set V := (if L.length / 10 < 1 then 1 else if 10 < L.length / 10 then 10
    else L.length / 10) with hV
  rcases hloop : splitChunkLoop chunk L L.length maxSize V 0 L [] chunk.startLine ctr
    with ⟨cs, cur, curStart, ctr2⟩
  rw [hloop] at hc
  dsimp only at hc
  have hmain := splitChunkLoop_bounds chunk L L.length maxSize V L 0 [] chunk.startLine
    ctr (by omega) (by omega)
  rw [hloop] at hmain
  dsimp only at hmain
  by_cases hcur : 0 < cur.length
  · rw [if_pos hcur] at hc
    rcases List.mem_append.mp hc with h1 | h2
    · exact hmain.1 c h1
    · rcases List.mem_singleton.mp h2 with rfl
      refine ⟨rfl, rfl, rfl, ?_⟩
      show curStart ≤ chunk.endLine
      have h3 := hmain.2
      have h4 : L.length = countNL chunk.content + 1 := goSplitLines_length _
      omega
  · rw [if_neg hcur] at hc
    exact hmain.1 c hc

/-- splitLargeChunk never changes the chunk type (no well-formedness needed). -/
theorem splitLargeChunk_type (chunk : CodeChunk) (maxSize ctr : Nat) :
    ∀ c ∈ (splitLargeChunk chunk maxSize ctr).1, c.chunkType = chunk.chunkType := by
  intro c hc
  simp only [splitLargeChunk] at hc
  set L := goSplitLines chunk.content with hL
  set V := (if L.length / 10 < 1 then 1 else if 10 < L.length / 10 then 10
    else L.length / 10) with hV
  rcases hloop : splitChunkLoop chunk L L.length maxSize V 0 L [] chunk.startLine ctr
    with ⟨cs, cur, curStart, ctr2⟩
  rw [hloop] at hc
  dsimp only at hc
  have hmain := splitChunkLoop_bounds chunk L L.length maxSize V L 0 [] chunk.startLine
    ctr (by omega) (by omega)
  rw [hloop] at hmain
  dsimp only at hmain
  by_cases hcur : 0 < cur.length
  · rw [if_pos hcur] at hc
    rcases List.mem_append.mp hc with h1 | h2
    · exact (hmain.1 c h1).1
    · rcases List.mem_singleton.mp h2 with rfl
      rfl
  · rw [if_neg hcur] at hc
    exact (hmain.1 c hc).1

/-- Method chunks built by the hierarchical loop carry the summary id and the
class name, have type method, and (under tree-sitter row/byte consistency of
the method nodes) ordered line ranges. -/
theorem hierarchicalMethods_spec (repoPath filePath language content : Str)
    (maxSize : Nat) (summaryId className : Str) :
    ∀ (ms : List AstNode) (ctr : Nat),
      (∀ m ∈ ms, m.startRow ≤ m.endRow ∧
        countNL (goSlice content m.startByte m.endByte) ≤ m.endRow - m.startRow) →
      ∀ c ∈ (hierarchicalMethods repoPath filePath language content maxSize summaryId
          className ctr ms).1,
        c.chunkType = ChunkType.method ∧ c.parentChunkID = summaryId ∧
        c.className = className ∧ c.startLine ≤ c.endLine := by
  intro ms
  induction ms with
  | nil =>
    intro ctr hwf c hc
    simp only [hierarchicalMethods] at hc
    exact absurd hc (List.not_mem_nil c)
  | cons m rest ih =>
    intro ctr hwf c hc
    simp only [hierarchicalMethods] at hc
    rcases hcc : createChunkFromNode m repoPath filePath language content
      nodeTypeJavaMethod ctr with ⟨mco, ctr2⟩
    rw [hcc] at hc
    cases mco with
    | none =>
      dsimp only at hc
      exact ih ctr2 (fun x hx => hwf x (List.mem_cons_of_mem m hx)) c hc
    | some mc =>
      dsimp only at hc
      obtain ⟨hty, hpar, hsl, hel, hcnt⟩ := createChunkFromNode_spec m repoPath filePath
        language content nodeTypeJavaMethod ctr mc ctr2 hcc
      obtain ⟨hrow, hnl⟩ := hwf m (List.mem_cons_self m rest)
      by_cases hbig : maxSize < mc.content.length
      · rw [if_pos hbig] at hc
        rcases hsp : splitLargeChunk { mc with parentChunkID := summaryId, chunkType := ChunkType.method, className := className } maxSize ctr2 with ⟨sp, ctr3⟩
        rw [hsp] at hc
        rcases hrest : hierarchicalMethods repoPath filePath language content maxSize
          summaryId className ctr3 rest with ⟨ms2, ctr4⟩
        rw [hrest] at hc
        dsimp only at hc
        rcases List.mem_append.mp hc with h1 | h2
        · have hl : ({ mc with parentChunkID := summaryId, chunkType := ChunkType.method, className := className } : CodeChunk).startLine + countNL ({ mc with parentChunkID := summaryId, chunkType := ChunkType.method, className := className } : CodeChunk).content ≤ ({ mc with parentChunkID := summaryId, chunkType := ChunkType.method, className := className } : CodeChunk).endLine := by
            show mc.startLine + countNL mc.content ≤ mc.endLine
            rw [hsl, hel]
            omega
          have hfacts := splitLargeChunk_spec _ maxSize ctr2 hl c (by rw [hsp]; exact h1)
          exact ⟨hfacts.1, hfacts.2.1, hfacts.2.2.1, hfacts.2.2.2⟩
        · exact ih ctr3 (fun x hx => hwf x (List.mem_cons_of_mem m hx)) c
            (by rw [hrest]; exact h2)
      · rw [if_neg hbig] at hc
        rcases hrest : hierarchicalMethods repoPath filePath language content maxSize
          summaryId className ctr2 rest with ⟨ms2, ctr3⟩
        rw [hrest] at hc
        dsimp only at hc
        rcases List.mem_cons.mp hc with rfl | h2
        · refine ⟨rfl, rfl, rfl, ?_⟩
          show mc.startLine ≤ mc.endLine
          rw [hsl, hel]
          omega
        · exact ih ctr2 (fun x hx => hwf x (List.mem_cons_of_mem m hx)) c
            (by rw [hrest]; exact h2)

/-- All chunks from the hierarchical method loop have type method (no
well-formedness hypotheses needed). -/
theorem hierarchicalMethods_type (repoPath filePath language content : Str)
    (maxSize : Nat) (summaryId className : Str) :
    ∀ (ms : List AstNode) (ctr : Nat),
      ∀ c ∈ (hierarchicalMethods repoPath filePath language content maxSize summaryId
          className ctr ms).1,
        c.chunkType = ChunkType.method := by
  intro ms
  induction ms with
  | nil =>
    intro ctr c hc
    simp only [hierarchicalMethods] at hc
    exact absurd hc (List.not_mem_nil c)
  | cons m rest ih =>
    intro ctr c hc
    simp only [hierarchicalMethods] at hc
    rcases hcc : createChunkFromNode m repoPath filePath language content
      nodeTypeJavaMethod ctr with ⟨mco, ctr2⟩
    rw [hcc] at hc
    cases mco with
    | none =>
      dsimp only at hc
      exact ih ctr2 c hc
    | some mc =>
      dsimp only at hc
      by_cases hbig : maxSize < mc.content.length
      · rw [if_pos hbig] at hc
        rcases hsp : splitLargeChunk { mc with parentChunkID := summaryId, chunkType := ChunkType.method, className := className } maxSize ctr2 with ⟨sp, ctr3⟩
        rw [hsp] at hc
        rcases hrest : hierarchicalMethods repoPath filePath language content maxSize
          summaryId className ctr3 rest with ⟨ms2, ctr4⟩
        rw [hrest] at hc
        dsimp only at hc
        rcases List.mem_append.mp hc with h1 | h2
        · exact splitLargeChunk_type _ maxSize ctr2 c (by rw [hsp]; exact h1)
        · exact ih ctr3 c (by rw [hrest]; exact h2)
      · rw [if_neg hbig] at hc
        rcases hrest : hierarchicalMethods repoPath filePath language content maxSize
          summaryId className ctr2 rest with ⟨ms2, ctr3⟩
        rw [hrest] at hc
        dsimp only at hc
        rcases List.mem_cons.mp hc with rfl | h2
        · rfl
        · exact ih ctr2 c (by rw [hrest]; exact h2)

/-- When a class has method nodes, its generated summary text contains the
method-list marker and so is not whitespace-only. -/
theorem createClassSummary_ne_nil (isMS : Str → Str → Bool) (n : AstNode)
    (content language : Str) (hm : extractMethodNodes language n ≠ []) :
    goTrim (createClassSummary isMS n content language) ≠ [] := by
  intro h
  have hall := goTrim_eq_nil_forall _ h
  have hmem : '/' ∈ createClassSummary isMS n content language := by
    simp only [createClassSummary]
    have hlen : (extractMethodNodes language n).length ≠ 0 := by
      intro h0
      exact hm (List.length_eq_zero.mp h0)
    rw [if_pos hlen]
    exact List.mem_append_left _ (List.mem_append_right _ (by decide))
  exact absurd (hall '/' hmem) (by decide)

/-- Every chunk accumulated by the token chunker's main loop has type
function, provided the incoming accumulator does. -/
theorem chunkLoop_function (tok : Str → Nat) (isB : Str → Str → Bool)
    (repoPath filePath language : Str) (lines : List Str) (maxTokens overlap : Nat) :
    ∀ (fuel i : Nat) (cl : List Str) (ct sl : Nat) (acc : List CodeChunk) (ctr : Nat),
      (∀ c ∈ acc, c.chunkType = ChunkType.function) →
      ∀ c ∈ (chunkLoop tok isB repoPath filePath language lines maxTokens overlap
          fuel i cl ct sl acc ctr).1,
        c.chunkType = ChunkType.function := by
  intro fuel
  induction fuel with
  | zero =>
    intro i cl ct sl acc ctr hacc c hc
    simp only [chunkLoop] at hc
    exact hacc c hc
  | succ fuel ih =>
    intro i cl ct sl acc ctr hacc c hc
    simp only [chunkLoop] at hc
    by_cases hi : lines.length ≤ i
    · rw [if_pos hi] at hc
      exact hacc c hc
    · rw [if_neg hi] at hc
      by_cases hover : maxTokens < ct + tok ((lines.drop i).headD []) ∧ cl ≠ []
      · rw [if_pos hover] at hc
        rcases hfb : findBoundary isB language lines i 10 with _ | j
        · rw [hfb] at hc
          dsimp only at hc
          rcases hcc : createChunk repoPath filePath language cl sl ctr with ⟨co, ctr2⟩
          rw [hcc] at hc
          dsimp only at hc
          refine ih (i + 1) _ _ _ _ ctr2 ?_ c hc
          intro d hd
          cases co with
          | none => exact hacc d hd
          | some ch =>
            rcases List.mem_append.mp hd with h1 | h2
            · exact hacc d h1
            · rcases List.mem_singleton.mp h2 with rfl
              exact (createChunk_spec _ _ _ _ _ _ _ _ hcc).1
        · rw [hfb] at hc
          dsimp only at hc
          rcases hcc : createChunk repoPath filePath language
            (cl ++ (lines.drop i).take (j + 1 - i)) sl ctr with ⟨co, ctr2⟩
          rw [hcc] at hc
          dsimp only at hc
          refine ih (j + 1) _ _ _ _ ctr2 ?_ c hc
          intro d hd
          cases co with
          | none => exact hacc d hd
          | some ch =>
            rcases List.mem_append.mp hd with h1 | h2
            · exact hacc d h1
            · rcases List.mem_singleton.mp h2 with rfl
              exact (createChunk_spec _ _ _ _ _ _ _ _ hcc).1
      · rw [if_neg hover] at hc
        exact ih (i + 1) _ _ _ acc ctr hacc c hc

/-- Every chunk returned by the token chunker has type function. -/
theorem chunkWithLimits_function (tok : Str → Nat) (isB : Str → Str → Bool)
    (repoPath filePath language content : Str) (maxTokens overlap ctr : Nat) :
    ∀ c ∈ (chunkWithLimits tok isB repoPath filePath language content maxTokens
        overlap ctr).1,
      c.chunkType = ChunkType.function := by
  intro c hc
  simp only [chunkWithLimits] at hc
  rcases hloop : chunkLoop tok isB repoPath filePath language (goSplitLines content)
      maxTokens overlap ((goSplitLines content).length + 1) 0 [] 0 1 [] ctr
    with ⟨acc, cl, sl, ctr2⟩
  rw [hloop] at hc
  dsimp only at hc
  have hacc : ∀ d ∈ acc, d.chunkType = ChunkType.function := by
    intro d hd
    have hfn := chunkLoop_function tok isB repoPath filePath language
      (goSplitLines content) maxTokens overlap ((goSplitLines content).length + 1)
      0 [] 0 1 [] ctr (fun x hx => absurd hx (List.not_mem_nil x)) d
    rw [hloop] at hfn
    exact hfn hd
  by_cases hcl : cl ≠ []
  · rw [if_pos hcl] at hc
    rcases hcc : createChunk repoPath filePath language cl sl ctr2 with ⟨co, ctr3⟩
    rw [hcc] at hc
    cases co with
    | none =>
      dsimp only at hc
      exact hacc c hc
    | some ch =>
      dsimp only at hc
      rcases List.mem_append.mp hc with h1 | h2
      · exact hacc c h1
      · rcases List.mem_singleton.mp h2 with rfl
        exact (createChunk_spec _ _ _ _ _ _ _ _ hcc).1
  · rw [if_neg hcl] at hc
    exact hacc c hc

/-- Hierarchical chunking emits only class-summary and method chunks. -/
theorem createHierarchicalChunks_not_file (isMS : Str → Str → Bool) (n : AstNode)
    (repoPath filePath language content nodeType : Str) (maxSize ctr : Nat) :
    ∀ c ∈ (createHierarchicalChunks isMS n repoPath filePath language content nodeType
        maxSize ctr).1,
      c.chunkType ≠ ChunkType.file := by
  intro c hc
  simp only [createHierarchicalChunks] at hc
  rcases hms : hierarchicalMethods repoPath filePath language content maxSize (genId ctr)
    (extractNodeName n content) (ctr + 1) (extractMethodNodes language n) with ⟨ms, ctr2⟩
  rw [hms] at hc
  dsimp only at hc
  rcases List.mem_cons.mp hc with rfl | h2
  · intro h
    exact ChunkType.noConfusion h
  · have hty := hierarchicalMethods_type repoPath filePath language content maxSize
      (genId ctr) (extractNodeName n content) (extractMethodNodes language n) (ctr + 1) c
      (by rw [hms]; exact h2)
    rw [hty]
    intro h
    exact ChunkType.noConfusion h

/-- The per-node chunking dispatch never emits a whole-file chunk. -/
theorem chunksForNode_not_file (isMS : Str → Str → Bool) (enableHier : Bool)
    (repoPath filePath language content : Str) (maxSize : Nat) (n : AstNode) (ctr : Nat) :
    ∀ c ∈ (chunksForNode isMS enableHier repoPath filePath language content maxSize
        n ctr).1,
      c.chunkType ≠ ChunkType.file := by
  intro c hc
  simp only [chunksForNode] at hc
  by_cases hh : enableHier ∧ isLargeClassOrInterface n n.type maxSize = true
  · rw [if_pos hh] at hc
    exact createHierarchicalChunks_not_file isMS n repoPath filePath language content
      n.type maxSize ctr c hc
  · rw [if_neg hh] at hc
    rcases hcc : createChunkFromNode n repoPath filePath language content n.type ctr
      with ⟨co, ctr2⟩
    rw [hcc] at hc
    cases co with
    | none =>
      dsimp only at hc
      exact absurd hc (List.not_mem_nil c)
    | some ch =>
      dsimp only at hc
      have hty := (createChunkFromNode_spec n repoPath filePath language content n.type
        ctr ch ctr2 hcc).1
      by_cases hbig : maxSize < ch.content.length
      · rw [if_pos hbig] at hc
        have hty2 := splitLargeChunk_type ch maxSize ctr2 c hc
        rw [hty2, hty]
        intro h
        exact ChunkType.noConfusion h
      · rw [if_neg hbig] at hc
        rcases List.mem_singleton.mp hc with rfl
        rw [hty]
        intro h
        exact ChunkType.noConfusion h

/-- No node of the walk produces a whole-file chunk. -/
theorem chunksForNodes_not_file (isMS : Str → Str → Bool) (enableHier : Bool)
    (repoPath filePath language content : Str) (maxSize : Nat) :
    ∀ (ns : List AstNode) (ctr : Nat),
      ∀ c ∈ (chunksForNodes isMS enableHier repoPath filePath language content maxSize
          ctr ns).1,
        c.chunkType ≠ ChunkType.file := by
  intro ns
  induction ns with
  | nil =>
    intro ctr c hc
    simp only [chunksForNodes] at hc
    exact absurd hc (List.not_mem_nil c)
  | cons n rest ih =>
    intro ctr c hc
    simp only [chunksForNodes] at hc
    rcases h1 : chunksForNode isMS enableHier repoPath filePath language content maxSize
      n ctr with ⟨cs, ctr2⟩
    rw [h1] at hc
    rcases h2 : chunksForNodes isMS enableHier repoPath filePath language content maxSize
      ctr2 rest with ⟨csR, ctr3⟩
    rw [h2] at hc
    dsimp only at hc
    rcases List.mem_append.mp hc with hm1 | hm2
    · exact chunksForNode_not_file isMS enableHier repoPath filePath language content
        maxSize n ctr c (by rw [h1]; exact hm1)
    · exact ih ctr2 c (by rw [h2]; exact hm2)

/-- AST extraction never produces a whole-file chunk. -/
theorem extractSemanticNodes_not_file (isMS : Str → Str → Bool) (root : AstNode)
    (cfg : ChunkingConfig) (repoPath filePath language content : Str) (ctr : Nat) :
    ∀ c ∈ (extractSemanticNodes isMS root cfg repoPath filePath language content ctr).1,
      c.chunkType ≠ ChunkType.file := by
  intro c hc
  simp only [extractSemanticNodes] at hc
  exact chunksForNodes_not_file isMS cfg.enableHierarchicalChunking repoPath filePath
    language content (if cfg.maxChunkSizeBytes = 0 then 4000 else cfg.maxChunkSizeBytes)
    (walkCollect (getSemanticNodeTypes language) root) ctr c hc

/-- C3: ChunkFile never returns a chunk of the whole-file kind — AST chunks
are function, class-summary or method chunks and token chunks are function
chunks — and an accepted file whose content is entirely whitespace yields
zero chunks with no error. -/
theorem C3_no_whole_file_chunks (isMS isB : Str → Str → Bool) (tok : Str → Nat)
    (parse : Str → Str → Option AstNode) (cfg : ChunkingConfig)
    (repoPath filePath : Str) (fileRead : Option Str) (ctr : Nat) :
    (∀ cs, ChunkFile isMS isB tok parse cfg repoPath filePath fileRead ctr =
        Except.ok cs →
      ∀ c ∈ cs, c.chunkType ≠ ChunkType.file)
    ∧ (∀ content, fileRead = some content → goTrim content = [] →
        (detectLanguage filePath).isSome = true →
        ChunkFile isMS isB tok parse cfg repoPath filePath fileRead ctr =
          Except.ok []) := by
  constructor
  · intro cs hok c hc
    unfold ChunkFile at hok
    rcases hdet : detectLanguage filePath with _ | lang
    · rw [hdet] at hok
      exact Except.noConfusion hok
    · rw [hdet] at hok
      dsimp only at hok
      rcases fileRead with _ | content
      · exact Except.noConfusion hok
      · dsimp only at hok
        by_cases htr : goTrim content = []
        · rw [if_pos htr] at hok
          obtain rfl := Except.ok.inj hok
          exact absurd hc (List.not_mem_nil c)
        · rw [if_neg htr] at hok
          by_cases hcan : canParseLanguage lang = true
          · rw [if_pos hcan] at hok
            rcases hp : parse lang content with _ | root
            · rw [hp] at hok
              dsimp only at hok
              obtain rfl := Except.ok.inj hok
              have hfn := chunkWithLimits_function tok isB repoPath filePath lang content
                (calculateOptimalChunkSize cfg (countNL content + 1)).1
                (calculateOptimalChunkSize cfg (countNL content + 1)).2 ctr c hc
              rw [hfn]
              intro h
              exact ChunkType.noConfusion h
            · rw [hp] at hok
              dsimp only at hok
              rcases hext : extractSemanticNodes isMS root cfg repoPath filePath lang
                content ctr with ⟨csA, ctr2⟩
              rw [hext] at hok
              dsimp only at hok
              by_cases hne : csA.length ≠ 0
              · rw [if_pos hne] at hok
                dsimp only at hok
                obtain rfl := Except.ok.inj hok
                exact extractSemanticNodes_not_file isMS root cfg repoPath filePath lang
                  content ctr c (by rw [hext]; exact hc)
              · rw [if_neg hne] at hok
                dsimp only at hok
                obtain rfl := Except.ok.inj hok
                have hfn := chunkWithLimits_function tok isB repoPath filePath lang content
                  (calculateOptimalChunkSize cfg (countNL content + 1)).1
                  (calculateOptimalChunkSize cfg (countNL content + 1)).2 ctr c hc
                rw [hfn]
                intro h
                exact ChunkType.noConfusion h
          · rw [if_neg hcan] at hok
            dsimp only at hok
            obtain rfl := Except.ok.inj hok
            have hfn := chunkWithLimits_function tok isB repoPath filePath lang content
              (calculateOptimalChunkSize cfg (countNL content + 1)).1
              (calculateOptimalChunkSize cfg (countNL content + 1)).2 ctr c hc
            rw [hfn]
            intro h
            exact ChunkType.noConfusion h
  · intro content hfr htr hdet
    subst hfr
    unfold ChunkFile
    rcases hdet2 : detectLanguage filePath with _ | lang
    · rw [hdet2] at hdet
      simp at hdet
    · dsimp only
      rw [if_pos htr]

/-- Witness for C3: a supported .java path whose content is whitespace-only
is chunked to ok []. -/
theorem C3_no_whole_file_chunks_witness :
    ChunkFile (fun _ _ => false) (fun _ _ => false) (fun _ => 0) (fun _ _ => none)
      ⟨0, 0, 0, false, 0⟩ [] (("a.java").data) (some ((" \n ").data)) 0 =
      Except.ok [] :=
  (C3_no_whole_file_chunks (fun _ _ => false) (fun _ _ => false) (fun _ => 0)
    (fun _ _ => none) ⟨0, 0, 0, false, 0⟩ [] (("a.java").data)
    (some ((" \n ").data)) 0).2 ((" \n ").data) rfl (by decide) (by decide)

/-- C7 (amended): given tree-sitter's row/byte consistency for the class and
its method nodes, hierarchical splitting yields one class-summary chunk
followed by method chunks that carry its (nonempty) id as parent and the
extracted class name, all with ordered line ranges, the parent-id/method-type
iff, and a summary text containing the method list (hence not
whitespace-only) whenever methods exist; the class name equals whatever
extractNodeName finds (which may be empty, see the counterexample).  Token
chunks are function chunks with no parent, built only from line windows that
are not whitespace-only, with ordered line ranges; their stored content is
non-whitespace when the 4000-byte safety cap does not truncate it. -/
theorem C7_chunk_invariants (isMS : Str → Str → Bool) (n : AstNode)
    (repoPath filePath language content nodeType : Str) (maxSize ctr : Nat)
    (hn : n.startRow ≤ n.endRow)
    (hm : ∀ m ∈ extractMethodNodes language n, m.startRow ≤ m.endRow ∧
      countNL (goSlice content m.startByte m.endByte) ≤ m.endRow - m.startRow) :
    (∃ summary rest,
      (createHierarchicalChunks isMS n repoPath filePath language content nodeType
        maxSize ctr).1 = summary :: rest ∧
      summary.chunkType = ChunkType.classSummary ∧
      summary.parentChunkID = [] ∧
      summary.className = extractNodeName n content ∧
      summary.id ≠ [] ∧
      summary.startLine ≤ summary.endLine ∧
      (summary.parentChunkID ≠ [] ↔ summary.chunkType = ChunkType.method) ∧
      (∀ c ∈ rest, c.chunkType = ChunkType.method ∧ c.parentChunkID = summary.id ∧
        c.className = extractNodeName n content ∧ c.startLine ≤ c.endLine ∧
        (c.parentChunkID ≠ [] ↔ c.chunkType = ChunkType.method)) ∧
      (extractMethodNodes language n ≠ [] →
        goTrim (createClassSummary isMS n content language) ≠ []))
    ∧ (∀ (lines : List Str) (startLine ctr2 : Nat) (ch : CodeChunk) (ctr3 : Nat),
        createChunk repoPath filePath language lines startLine ctr2 = (some ch, ctr3) →
        ch.chunkType = ChunkType.function ∧ ch.parentChunkID = [] ∧
        goTrim (goJoinLines lines) ≠ [] ∧ ch.startLine ≤ ch.endLine ∧
        ((goJoinLines lines).length ≤ 4000 → goTrim ch.content ≠ [])) := by
  constructor
  · simp only [createHierarchicalChunks]
    rcases hms : hierarchicalMethods repoPath filePath language content maxSize
      (genId ctr) (extractNodeName n content) (ctr + 1) (extractMethodNodes language n)
      with ⟨ms, ctr2⟩
    refine ⟨_, ms, rfl, rfl, rfl, rfl, genId_ne_nil ctr, ?_, ?_, ?_, ?_⟩
    · show n.startRow + 1 ≤ n.endRow + 1
      omega
    · exact iff_of_false (fun h => h rfl) (fun h => ChunkType.noConfusion h)
    · intro c hc
      have hsp := hierarchicalMethods_spec repoPath filePath language content maxSize
        (genId ctr) (extractNodeName n content) (extractMethodNodes language n) (ctr + 1)
        hm c (by rw [hms]; exact hc)
      refine ⟨hsp.1, hsp.2.1, hsp.2.2.1, hsp.2.2.2, ?_⟩
      refine iff_of_true ?_ hsp.1
      rw [hsp.2.1]
      exact genId_ne_nil ctr
    · intro hne
      exact createClassSummary_ne_nil isMS n content language hne
  · intro lines startLine ctr2 ch ctr3 h
    exact createChunk_spec repoPath filePath language lines startLine ctr2 ch ctr3 h

/-- Witness for C7: the fixture class produces a leading class-summary chunk
with an ordered line range. -/
theorem C7_chunk_invariants_witness :
    ((createHierarchicalChunks (fun _ _ => false) c7class (("repo").data)
        (("f.java").data) (("java").data) c7content (("class_declaration").data)
        10 0).1.headD emptyChunk).chunkType = ChunkType.classSummary ∧
    ((createHierarchicalChunks (fun _ _ => false) c7class (("repo").data)
        (("f.java").data) (("java").data) c7content (("class_declaration").data)
        10 0).1.headD emptyChunk).startLine ≤
      ((createHierarchicalChunks (fun _ _ => false) c7class (("repo").data)
        (("f.java").data) (("java").data) c7content (("class_declaration").data)
        10 0).1.headD emptyChunk).endLine := by
  obtain ⟨hfirst, _⟩ := C7_chunk_invariants (fun _ _ => false) c7class (("repo").data)
    (("f.java").data) (("java").data) c7content (("class_declaration").data) 10 0
    (by decide) (by decide)
  obtain ⟨summary, rest, hout, hty, _, _, _, hle, _, _, _⟩ := hfirst
  rw [hout]
  exact ⟨hty, hle⟩

/-- C7 counterexample: for an anonymous class (no identifier child) whose
single method is mostly blank lines, hierarchical chunking emits a summary
and method chunks whose ClassName is empty on every chunk, and one of the
split method chunks has whitespace-only content (a 10-byte window that falls
entirely inside the blank-line run), refuting the claimed invariants that
ClassName is non-empty on summary and method chunks and that chunk content is
never empty after trimming. -/
theorem C7_chunk_invariants_counterexample :
    (((createHierarchicalChunks (fun _ _ => false) c7class (("repo").data)
        (("f.java").data) (("java").data) c7content (("class_declaration").data)
        10 0).1.map (fun c => c.className)).all (fun s => s.isEmpty)) = true ∧
    (((createHierarchicalChunks (fun _ _ => false) c7class (("repo").data)
        (("f.java").data) (("java").data) c7content (("class_declaration").data)
        10 0).1.map (fun c => goTrim c.content)).contains []) = true := by
  constructor
  · decide
  · decide

end SemSearch
